import Mathlib

/-!
TCP-Stop-Wait: a shallow embedding of `client.c`, `server.c` and `commons.h`.

The sender (`client.c`) splits a file into packets of `PACKET_SIZE` bytes and
sends them over two channels with a stop-and-wait retransmission scheme; the
receiver (`server.c`) writes in-order packets to the output file and keeps
out-of-order packets in a small sorted buffer.

Conventions of the embedding.

* A file is the list of its bytes; a `FILE*` is the file together with a read
  cursor (sender) or the list of bytes written so far (receiver).
* C integers are `Nat`/`Int`. `unsigned int` values are reduced modulo `2^32`
  where they are stored, `int` values are wrapped by `toInt32`, and a comparison
  of an `unsigned int` with an `int` converts the `int` with `toU32`, as C does.
* Calls of `rand()`, `select()`, `recv()` and `clock()` are inputs of the step
  functions; `send()` and `fwrite()` append to logs kept in the state.
* `print_packet` and the socket set-up have no effect on the protocol state and
  are left out.
-/

namespace StopWait

/-- One byte of file content or payload (a C `char`). -/
abbrev Byte := Fin 256

/-- The macro `PACKET_SIZE` of commons.h: the payload capacity of a packet, in bytes. -/
abbrev PACKET_SIZE : Nat := 100

/-- The macro `RETRANSMISSION_TIMEOUT` of commons.h, in seconds. -/
abbrev RETRANSMISSION_TIMEOUT : Nat := 2

/-- The macro `MAX_RETRIES` of commons.h. -/
abbrev MAX_RETRIES : Nat := 10

/-- The macro `PACKET_DROP_RATE` of commons.h, in percent. -/
abbrev PACKET_DROP_RATE : Nat := 10

/-- The macro `TMP_BUFFER_SIZE` of server.c: the capacity of the buffer, in packets. -/
abbrev TMP_BUFFER_SIZE : Nat := 4

/-- The value of `CLOCKS_PER_SEC` from `<time.h>` (one million on POSIX systems). -/
abbrev CLOCKS_PER_SEC : Nat := 1000000

/-- The compiler constant `__INT_MAX__` for a 32-bit `int`. -/
abbrev INT_MAX : Int := 2147483647

/-- The compiler constant `__LONG_LONG_MAX__`. -/
abbrev LONG_LONG_MAX : Nat := 9223372036854775807

/-- Conversion of an `int` to `unsigned int` (reduction modulo `2^32`). -/
def toU32 (x : Int) : Nat := (x % 4294967296).toNat

/-- Conversion of an integer value to a 32-bit `int` (two's complement wrap-around). -/
def toInt32 (x : Int) : Int := (x + 2147483648) % 4294967296 - 2147483648

/-- The `Packet` struct of commons.h. The three one-bit fields hold `0` or `1`.
`payload` lists the bytes of the `payload` array that have been filled in. -/
structure Packet where
  payload_size : Nat
  seq_no : Nat
  data_or_ack : Nat
  channel_no : Nat
  is_last : Nat
  payload : List Byte
deriving DecidableEq, Repr, Inhabited

/-! ## The sender's packet construction (client.c) -/

namespace Client

/-- The function `create_packet(fptr, channel_no)` of client.c. The file is `F` with read cursor
`pos`; the result is the packet and the cursor after the `fread`. `ftell` gives
`pos`, which is stored in the `unsigned int` field `seq_no`; `fread` delivers the
next at most `PACKET_SIZE` bytes. -/
def create_packet (F : List Byte) (pos : Nat) (channel_no : Nat) : Packet × Nat :=
  let payload := (F.drop pos).take PACKET_SIZE
  let payload_size := payload.length
  ({ seq_no := pos % 4294967296,
     payload_size := payload_size,
     channel_no := channel_no % 2,
     is_last := if payload_size < PACKET_SIZE then 1 else 0,
     data_or_ack := 0,
     payload := payload },
   pos + payload_size)

/-- Repeated calls of `create_packet` on the shared file, starting at cursor `pos`,
until a packet marked `is_last` has been produced. The `k`-th call made here is for
channel `chan k`. `fuel` bounds the number of calls. -/
def read_packets (F : List Byte) (chan : Nat → Nat) : Nat → Nat → Nat → List Packet
  | 0, _, _ => []
  | fuel + 1, k, pos =>
    let r := create_packet F pos (chan k)
    if r.1.is_last = 1 then [r.1] else r.1 :: read_packets F chan fuel (k + 1) r.2

/-- All packets of a file: `create_packet` called from offset `0` until `is_last`.
`F.length / PACKET_SIZE + 1` calls always suffice. -/
def all_packets (F : List Byte) (chan : Nat → Nat) : List Packet :=
  read_packets F chan (F.length / PACKET_SIZE + 1) 0 0

/-! ## The sender's timers and transfer loop (client.c) -/

/-- The function `min_time_channel` of client.c. The arguments are `size_t`, so the two sums are
taken modulo `2^64`; `rand` is the value `rand()` returns when it is called. -/
def min_time_channel (c0_sec c0_usec c1_sec c1_usec : Nat) (rand : Nat) : Nat :=
  let c0_time := (c0_sec * CLOCKS_PER_SEC + c0_usec) % 18446744073709551616
  let c1_time := (c1_sec * CLOCKS_PER_SEC + c1_usec) % 18446744073709551616
  if c0_time < c1_time then 0
  else if c0_time > c1_time then 1
  else rand % 2

/-- The integer part of a number: truncation towards zero. -/
def truncate (x : ℚ) : Int := x.num.tdiv x.den

/-- The quotient `n / d` rounded to the nearest integer, a tie going to the even one. -/
def round_half_even (n d : Nat) : Nat :=
  let f := n / d
  let r := n % d
  if 2 * r < d then f
  else if d < 2 * r then f + 1
  else if f % 2 = 0 then f else f + 1

/-- The number of binary digits of `n`, found with at most `fuel` halvings; `fuel = n`
always suffices. -/
def bit_length : Nat → Nat → Nat
  | 0, _ => 0
  | fuel + 1, n => if n = 0 then 0 else bit_length fuel (n / 2) + 1

/-- The value a number takes when it is stored in a `double`: the nearest IEEE 754
binary64 number (53 significant bits, smallest exponent -1074), a tie going to the even
significand. This is the rounding of every conversion to `double` and of every `double`
operation of client.c. Overflow to infinity is not modelled: the numbers of client.c stay
below 2^65. -/
def round_double (x : ℚ) : ℚ :=
  if x = 0 then 0
  else
    let n := x.num.natAbs
    let d := x.den
    let e0 : Int := (bit_length n n : Int) - (bit_length d d : Int)
    let below : Bool :=
      if 0 ≤ e0 then decide (n < 2 ^ e0.toNat * d) else decide (n * 2 ^ (-e0).toNat < d)
    let e : Int := if below then e0 - 1 else e0
    let q : Int := max (e - 52) (-1074)
    let m : Nat :=
      if 0 ≤ q then round_half_even n (d * 2 ^ q.toNat)
      else round_half_even (n * 2 ^ (-q).toNat) d
    let a : ℚ :=
      if 0 ≤ q then ((m * 2 ^ q.toNat : Nat) : ℚ) else (m : ℚ) / ((2 ^ (-q).toNat : Nat) : ℚ)
    if x < 0 then -a else a

/-- The C conversion `(long) x` of a `double`: truncation towards zero. For a value outside
the range of `long` the conversion is undefined in C; the result is taken to be `LONG_MIN`,
which is what the conversion instruction of x86-64 delivers. -/
def to_long (x : ℚ) : Int :=
  let z := truncate x
  if -9223372036854775808 ≤ z ∧ z < 9223372036854775808 then z else -9223372036854775808

/-- The function `time_left(&sec, &usec, time_taken)` of client.c, returning the new values of
`*sec` and `*usec`. The arithmetic is that of `double`: every conversion and every operation
is rounded by `round_double` (`CLOCKS_PER_SEC` is a `double` exactly). -/
def time_left (sec usec : Nat) (time_taken : ℚ) : Nat × Nat :=
  let remaining_time : ℚ :=
    round_double (round_double (sec : ℚ)
      + round_double (round_double (usec : ℚ) / (CLOCKS_PER_SEC : ℚ)))
  let remaining_time : ℚ := round_double (remaining_time - time_taken)
  let remaining_sec : Int := to_long remaining_time
  let remaining_usec : Int :=
    to_long (round_double (round_double (remaining_time - round_double (remaining_sec : ℚ))
      * (CLOCKS_PER_SEC : ℚ)))
  if remaining_sec < 0 ∨ remaining_usec < 0 then (0, 1)
  else (remaining_sec.toNat, remaining_usec.toNat)

/-- The value of `time_taken` in a pass of the transfer loop,
`(end - start) / (double) CLOCKS_PER_SEC`, for `ticks = end - start`. -/
def time_taken (ticks : Int) : ℚ :=
  round_double (round_double (ticks : ℚ) / (CLOCKS_PER_SEC : ℚ))

/-- The variables of the sender's `main` that the protocol uses. `pos` is the read
cursor of `fptr`, `closed` counts the calls of `fclose(fptr)`, `stale_reads` counts
the calls of `create_packet` made after the file was closed, `sent` logs every
packet passed to `send` with the index of its socket, and `received` logs every
packet delivered by `recv`. -/
structure Sender where
  pos : Nat
  closed : Nat
  stale_reads : Nat
  time_left_0_sec : Nat
  time_left_0_usec : Nat
  time_left_1_sec : Nat
  time_left_1_usec : Nat
  min_time_sock : Nat
  pkt0_trans_count : Nat
  pkt1_trans_count : Nat
  state_ch0 : Nat
  state_ch1 : Nat
  ch0_pkt : Packet
  ch1_pkt : Packet
  is_ch0_updated : Nat
  is_ch1_updated : Nat
  sent : List (Nat × Packet)
  received : List (Nat × Packet)
deriving DecidableEq, Repr

/-- The sender's `main` up to the transfer loop, for the input file `F`: the first
packet is created and sent on channel 0, and the second one on channel 1 unless the
first was marked `is_last`. `ch1_pkt` is not initialised by the program in that
case; it holds a default packet here. -/
def init (F : List Byte) : Sender :=
  let r0 := create_packet F 0 0
  let s : Sender :=
    { pos := r0.2, closed := 0, stale_reads := 0,
      time_left_0_sec := RETRANSMISSION_TIMEOUT,
      time_left_0_usec := RETRANSMISSION_TIMEOUT,
      time_left_1_sec := 0, time_left_1_usec := 0,
      min_time_sock := 0,
      pkt0_trans_count := 0 + 1, pkt1_trans_count := 0,
      state_ch0 := 1, state_ch1 := 0,
      ch0_pkt := r0.1, ch1_pkt := default,
      is_ch0_updated := 0, is_ch1_updated := 0,
      sent := [(0, r0.1)], received := [] }
  let s := if r0.1.is_last ≠ 0 then { s with state_ch0 := 2, closed := s.closed + 1 } else s
  if s.state_ch0 ≠ 2 then
    let r1 := create_packet F s.pos 1
    { s with
      ch1_pkt := r1.1, pos := r1.2,
      sent := s.sent ++ [(1, r1.1)],
      pkt1_trans_count := s.pkt1_trans_count + 1,
      state_ch1 := 1 }
  else
    { s with time_left_1_sec := LONG_LONG_MAX, state_ch1 := 2 }

/-- The branch `if(num_ready == 0)` of the transfer loop: a timeout of the channel
`min_time_sock`. The result is `none` when the program exits because the packet
has been transmitted `MAX_RETRIES` times. -/
def on_timeout (s : Sender) : Option Sender :=
  if s.min_time_sock = 0 then
    if s.pkt0_trans_count ≥ MAX_RETRIES then none
    else some { s with
      sent := s.sent ++ [(0, s.ch0_pkt)],
      pkt0_trans_count := s.pkt0_trans_count + 1,
      state_ch0 := 1,
      time_left_0_sec := RETRANSMISSION_TIMEOUT,
      time_left_0_usec := 0,
      is_ch0_updated := 1 }
  else
    if s.pkt1_trans_count ≥ MAX_RETRIES then none
    else some { s with
      sent := s.sent ++ [(1, s.ch1_pkt)],
      pkt1_trans_count := s.pkt1_trans_count + 1,
      state_ch1 := 1,
      time_left_1_sec := RETRANSMISSION_TIMEOUT,
      time_left_1_usec := 0,
      is_ch1_updated := 1 }

/-- The branch `if(FD_ISSET(fds[0], &read_fds))` of the transfer loop, with `ack` the
packet that `recv` stores in `ch0_pkt`. A read of the file after `fclose` is counted
in `stale_reads` and modelled as a read at the cursor. -/
def on_receive0 (F : List Byte) (s : Sender) (ack : Packet) : Sender :=
  let s := { s with ch0_pkt := ack, received := s.received ++ [(0, ack)] }
  if s.state_ch0 ≠ 2 ∧ s.state_ch1 ≠ 2 then
    let r := create_packet F s.pos 0
    let s := { s with
      ch0_pkt := r.1, pos := r.2,
      stale_reads := s.stale_reads + (if s.closed = 0 then 0 else 1),
      sent := s.sent ++ [(0, r.1)],
      state_ch0 := 1,
      pkt0_trans_count := 0 + 1,
      time_left_0_sec := RETRANSMISSION_TIMEOUT,
      time_left_0_usec := 0,
      is_ch0_updated := 1 }
    if r.1.is_last ≠ 0 then { s with state_ch0 := 2, closed := s.closed + 1 } else s
  else
    { s with time_left_0_sec := LONG_LONG_MAX, state_ch0 := 2 }

/-- The branch `if(FD_ISSET(fds[1], &read_fds))` of the transfer loop, with `ack` the
packet that `recv` stores in `ch1_pkt`. -/
def on_receive1 (F : List Byte) (s : Sender) (ack : Packet) : Sender :=
  let s := { s with ch1_pkt := ack, received := s.received ++ [(1, ack)] }
  if s.state_ch0 ≠ 2 ∧ s.state_ch1 ≠ 2 then
    let r := create_packet F s.pos 1
    let s := { s with
      ch1_pkt := r.1, pos := r.2,
      stale_reads := s.stale_reads + (if s.closed = 0 then 0 else 1),
      sent := s.sent ++ [(1, r.1)],
      state_ch1 := 1,
      pkt1_trans_count := 0 + 1,
      time_left_1_sec := RETRANSMISSION_TIMEOUT,
      time_left_1_usec := 0,
      is_ch1_updated := 1 }
    if r.1.is_last ≠ 0 then { s with state_ch1 := 2, closed := s.closed + 1 } else s
  else
    { s with time_left_1_sec := LONG_LONG_MAX, state_ch1 := 2 }

/-- The result of `select` in the transfer loop: a timeout (`num_ready == 0`), or
for each socket whether it is readable and, if so, the packet `recv` delivers. -/
inductive Select where
  | timeout : Select
  | ready : Option Packet → Option Packet → Select
deriving DecidableEq, Repr

/-- The inputs of one pass of the transfer loop: the value `rand()` returns if
`min_time_channel` calls it, the clock ticks `end - start` spent in `select`, and
the result of `select`. -/
structure Event where
  rand : Nat
  ticks : Int
  sel : Select
deriving DecidableEq, Repr

/-- The timer recomputation at the end of a pass of the transfer loop. -/
def recompute_timers (s : Sender) (time_taken : ℚ) : Sender :=
  let s := if s.is_ch0_updated = 0 then
      let t := time_left s.time_left_0_sec s.time_left_0_usec time_taken
      { s with time_left_0_sec := t.1, time_left_0_usec := t.2 }
    else s
  if s.is_ch1_updated = 0 then
    let t := time_left s.time_left_1_sec s.time_left_1_usec time_taken
    { s with time_left_1_sec := t.1, time_left_1_usec := t.2 }
  else s

/-- The start of a pass of the transfer loop: `min_time_sock` is computed from the
timers (with `rand` the value `rand()` returns on a tie) and the two flags
`is_ch0_updated` and `is_ch1_updated` are cleared. -/
def begin_pass (s : Sender) (rand : Nat) : Sender :=
  { s with
    min_time_sock := min_time_channel s.time_left_0_sec s.time_left_0_usec
      s.time_left_1_sec s.time_left_1_usec rand,
    is_ch0_updated := 0, is_ch1_updated := 0 }

/-- One pass of the body of `while(state_ch0 + state_ch1 < 4)`; `none` when the
program exits in the timeout branch. -/
def step (F : List Byte) (s : Sender) (ev : Event) : Option Sender :=
  let s := begin_pass s ev.rand
  match ev.sel with
  | Select.timeout =>
    match on_timeout s with
    | none => none
    | some s1 => some (recompute_timers s1 (time_taken ev.ticks))
  | Select.ready p0 p1 =>
    let s0 := match p0 with
      | some ack => on_receive0 F s ack
      | none => s
    let s1 := match p1 with
      | some ack => on_receive1 F s0 ack
      | none => s0
    some (recompute_timers s1 (time_taken ev.ticks))

/-- The transfer loop `while(state_ch0 + state_ch1 < 4)` run on a list of events. It
stops when the loop condition fails (the success notice follows) or the events are
used up; `none` when the program exits in the timeout branch. -/
def transfer_loop (F : List Byte) : Sender → List Event → Option Sender
  | s, [] => some s
  | s, ev :: rest =>
    if s.state_ch0 + s.state_ch1 < 4 then
      match step F s ev with
      | none => none
      | some s1 => transfer_loop F s1 rest
    else some s

/-- A file of 4294967396 zero bytes (100 bytes more than 4 GiB). -/
def huge_file : List Byte := List.replicate 4294967396 0

/-- A file of 250 bytes: two full chunks and a last chunk of 50 bytes. -/
def file250 : List Byte := List.replicate 250 7

/-- A file of 50 bytes, shorter than one packet. -/
def file50 : List Byte := List.replicate 50 7

/-- The packet `recv` delivers on socket 0 in a pass of the loop, if any. -/
def Select.on0 : Select → Option Packet
  | Select.timeout => none
  | Select.ready p0 _ => p0

/-- The packet `recv` delivers on socket 1 in a pass of the loop, if any. -/
def Select.on1 : Select → Option Packet
  | Select.timeout => none
  | Select.ready _ p1 => p1

/-- The packets of a `send` log that went out on socket `fd`. -/
def sent_on (fd : Nat) (log : List (Nat × Packet)) : List Packet :=
  (log.filter (fun x => x.1 = fd)).map (fun x => x.2)

/-- The sender of `file250` after the two initial sends, with the timer of channel 1
at 5 seconds, so that channel 0 has the smaller remaining time. -/
def waiting0 : Sender := { init file250 with time_left_1_sec := 5 }

/-- A DATA packet with a sequence number that the sender of `file250` never used. -/
def bogus_packet : Packet :=
  { payload_size := 0, seq_no := 999, data_or_ack := 0, channel_no := 0, is_last := 0,
    payload := [] }

/-- The acknowledgment of the packet with `seq_no` 0 sent on channel 0. -/
def ack0 : Packet :=
  { payload_size := 0, seq_no := 0, data_or_ack := 1, channel_no := 0, is_last := 0,
    payload := [] }

/-- The first pass of the transfer loop for `file250` in which the acknowledgment of
chunk 0 arrives on channel 0 after 100 clock ticks; the sender then reads and sends
the last chunk (offset 200) on channel 0. -/
def last_sent_event : Event := ⟨0, 100, Select.ready (some ack0) none⟩

/-- A run of the transfer loop for `file250`: the pass of `last_sent_event`, then a
timeout after 1 tick (selected for channel 1) and a timeout after 0 ticks. -/
def last_sent_run : List Event :=
  [last_sent_event, ⟨0, 1, Select.timeout⟩, ⟨0, 0, Select.timeout⟩]

/-- The first two passes of `last_sent_run`. -/
def last_sent_run2 : List Event := [last_sent_event, ⟨0, 1, Select.timeout⟩]

/-- The acknowledgment of the packet with `seq_no` 200 sent on channel 0. -/
def ack200 : Packet :=
  { payload_size := 0, seq_no := 200, data_or_ack := 1, channel_no := 0, is_last := 0,
    payload := [] }

/-- The run `last_sent_run` for `file250`, followed by a pass in which the acknowledgment
of the packet with `seq_no` 200 arrives on socket 0. -/
def stale_read_run : List Event :=
  last_sent_run ++ [⟨0, 0, Select.ready (some ack200) none⟩]

/-- One pass of the transfer loop in which the acknowledgment of the packet with
`seq_no` 0 arrives on socket 0. -/
def first_ack_run : List Event := [⟨0, 100, Select.ready (some ack0) none⟩]

end Client

/-! ## The receiver (server.c) -/

namespace Server

/-- The function `create_packet(seq_no, channel_no)` of server.c: a fresh acknowledgment. -/
def create_packet (seq_no : Nat) (channel_no : Nat) : Packet :=
  { seq_no := seq_no % 4294967296,
    payload_size := 0,
    channel_no := channel_no % 2,
    is_last := 0,
    data_or_ack := 1,
    payload := [] }

/-- The function `accept_or_drop()` of server.c, for the value `rand` returned by `rand()`:
`1` means drop. -/
def accept_or_drop (rand : Nat) : Nat :=
  if rand % 100 < PACKET_DROP_RATE then 1 else 0

/-- The first loop of `buffer_flush`: `for(i = ...; i < *buf_filled; i++)`, started
at index `i` with `out` the bytes written so far. Returns the final `i`, the bytes
written and the final `expected_seq`. `fuel` bounds the number of iterations. -/
def flush_loop (buffer : List Packet) (buf_filled : Nat) :
    Nat → Nat → List Byte → Int → Nat × List Byte × Int
  | 0, i, out, expected_seq => (i, out, expected_seq)
  | fuel + 1, i, out, expected_seq =>
    if i < buf_filled then
      let p := buffer.getD i default
      if p.seq_no = toU32 expected_seq then
        flush_loop buffer buf_filled fuel (i + 1)
          (out ++ p.payload.take p.payload_size) (toInt32 (expected_seq + p.payload_size))
      else
        flush_loop buffer buf_filled fuel (i + 1) out expected_seq
    else (i, out, expected_seq)

/-- The second loop of `buffer_flush`: `for(j = ...; j < *buf_filled - i; j++)
buffer[j] = buffer[i + j]`, with `bound` the value of `*buf_filled - i`. -/
def compress_loop (i : Nat) (bound : Nat) : Nat → Nat → List Packet → List Packet
  | 0, _, buffer => buffer
  | fuel + 1, j, buffer =>
    if j < bound then
      compress_loop i bound fuel (j + 1) (buffer.set j (buffer.getD (i + j) default))
    else buffer

/-- What `buffer_flush` leaves behind: the output file, the buffer array, the fill
count and the returned `expected_seq`. -/
structure Flushed where
  output : List Byte
  buffer : List Packet
  buf_filled : Nat
  expected_seq : Int
deriving DecidableEq, Repr

/-- The function `buffer_flush(fp, buffer, buf_filled, expected_seq)` of server.c; `output` is
the content of `fp` before the call. The index `i` never exceeds `buf_filled`, so
`*buf_filled - i` is computed on natural numbers. -/
def buffer_flush (output : List Byte) (buffer : List Packet) (buf_filled : Nat)
    (expected_seq : Int) : Flushed :=
  let r := flush_loop buffer buf_filled buf_filled 0 output expected_seq
  let i := r.1
  { output := r.2.1,
    buffer := compress_loop i (buf_filled - i) (buf_filled - i) 0 buffer,
    buf_filled := buf_filled - i,
    expected_seq := r.2.2 }

/-- The loop of `insert_packet_to_buffer`. The counter is `i + 1` for the C variable
`i`, which runs from `*buf_size - 1` down to `-1`; the result is the final value
of `i + 1` and the buffer with the larger packets moved one place up. -/
def insert_loop (pkt : Packet) : Nat → List Packet → Nat × List Packet
  | 0, buffer => (0, buffer)
  | i + 1, buffer =>
    if (buffer.getD i default).seq_no > pkt.seq_no then
      insert_loop pkt i (buffer.set (i + 1) (buffer.getD i default))
    else (i + 1, buffer)

/-- The function `insert_packet_to_buffer(pkt, buffer, buf_size)` of server.c: the new buffer
array and the new fill count. -/
def insert_packet_to_buffer (pkt : Packet) (buffer : List Packet) (buf_size : Nat) :
    List Packet × Nat :=
  let r := insert_loop pkt buf_size buffer
  (r.2.set r.1 pkt, buf_size + 1)

/-- The variables of the receiver's `main` that the protocol uses, with `output` the
bytes written to `output.txt` and `acks` the acknowledgments sent so far, each
with the index of the socket it was sent on. -/
structure Receiver where
  buffer : List Packet
  expected_seq : Int
  buf_filled : Nat
  is_last_ackd : Nat
  last_seq : Int
  output : List Byte
  acks : List (Nat × Packet)
deriving DecidableEq, Repr

/-- The receiver's variables when the main loop is entered. The buffer array is not
initialised by the program; its four slots hold a default packet here. -/
def Receiver.init : Receiver :=
  { buffer := List.replicate TMP_BUFFER_SIZE default,
    expected_seq := 0,
    buf_filled := 0,
    is_last_ackd := 0,
    last_seq := INT_MAX,
    output := [],
    acks := [] }

/-- The body of `if(FD_ISSET(fds[fd], &read_fds))` in the receiver's main loop, after
`recv` has delivered `pkt` and with `rand` the value `accept_or_drop` draws. The two
copies of this code in `main` (for `fds[0]` and `fds[1]`) differ only in the socket
the acknowledgment is sent on. -/
def handle_packet (fd : Nat) (st : Receiver) (pkt : Packet) (rand : Nat) : Receiver :=
  if accept_or_drop rand ≠ 1 then
    if pkt.seq_no < toU32 st.expected_seq then
      st
    else if pkt.seq_no = toU32 st.expected_seq then
      let ack := create_packet pkt.seq_no pkt.channel_no
      let last_seq := if pkt.is_last ≠ 0 then toInt32 pkt.seq_no else st.last_seq
      let done : Bool := decide (st.expected_seq ≥ last_seq)
      let ack := if done then { ack with is_last := 1 } else ack
      let is_last_ackd := if done then 1 else st.is_last_ackd
      let output := st.output ++ pkt.payload.take pkt.payload_size
      let expected_seq := toInt32 (st.expected_seq + pkt.payload_size)
      let r := buffer_flush output st.buffer st.buf_filled expected_seq
      { buffer := r.buffer,
        expected_seq := r.expected_seq,
        buf_filled := r.buf_filled,
        is_last_ackd := is_last_ackd,
        last_seq := last_seq,
        output := r.output,
        acks := st.acks ++ [(fd, ack)] }
    else if st.buf_filled < TMP_BUFFER_SIZE then
      let ack := create_packet pkt.seq_no pkt.channel_no
      let ack := if pkt.is_last ≠ 0 then { ack with is_last := 1 } else ack
      let is_last_ackd := if pkt.is_last ≠ 0 then 1 else st.is_last_ackd
      let r := insert_packet_to_buffer pkt st.buffer st.buf_filled
      { st with
        buffer := r.1,
        buf_filled := r.2,
        is_last_ackd := is_last_ackd,
        acks := st.acks ++ [(fd, ack)] }
    else st
  else st

/-- What one socket delivers in one pass of the main loop: the received packet and
the value of `rand()` used by `accept_or_drop`. -/
structure Arrival where
  pkt : Packet
  rand : Nat
deriving DecidableEq, Repr

/-- One pass of the body of `while(is_last_ackd == 0)`: `select` reports socket 0
readable iff `a0` is present and socket 1 readable iff `a1` is present; socket 0 is
served first. -/
def iteration (st : Receiver) (a0 a1 : Option Arrival) : Receiver :=
  let st0 := match a0 with
    | some a => handle_packet 0 st a.pkt a.rand
    | none => st
  match a1 with
    | some a => handle_packet 1 st0 a.pkt a.rand
    | none => st0

/-- The receiver's main loop `while(is_last_ackd == 0)` run on a list of `select`
results; it stops as soon as the loop condition fails. -/
def main_loop : Receiver → List (Option Arrival × Option Arrival) → Receiver
  | st, [] => st
  | st, ev :: rest =>
    if st.is_last_ackd = 0 then main_loop (iteration st ev.1 ev.2) rest else st

/-- A packet the sender can have produced for the file `F`: the result of the
sender's `create_packet` at the offset of the `k`-th chunk of `F`. -/
def Genuine (F : List Byte) (p : Packet) : Prop :=
  ∃ k chan, k ≤ F.length / PACKET_SIZE ∧ p = (Client.create_packet F (PACKET_SIZE * k) chan).1

/-- Every packet of a list of `select` results is genuine for `F`. -/
def GenuineRun (F : List Byte) (evs : List (Option Arrival × Option Arrival)) : Prop :=
  ∀ ev ∈ evs, (∀ a, ev.1 = some a → Genuine F a.pkt) ∧ (∀ a, ev.2 = some a → Genuine F a.pkt)

/-- The packets of a list are in ascending order of `seq_no`. -/
abbrev SortedBySeq (l : List Packet) : Prop := l.Pairwise (fun a b => a.seq_no ≤ b.seq_no)
/-- The state invariant of the receiver for genuine packets of the file `F`: the
buffer array has its four slots, at most four are in use, the bytes written are
the first `expected_seq` bytes of `F`, and the buffered packets are genuine. -/
def Inv (F : List Byte) (st : Receiver) : Prop :=
  st.buffer.length = TMP_BUFFER_SIZE ∧ st.buf_filled ≤ TMP_BUFFER_SIZE ∧
  0 ≤ st.expected_seq ∧ st.expected_seq ≤ (F.length : Int) ∧
  st.output = F.take st.expected_seq.toNat ∧
  ∀ q ∈ st.buffer.take st.buf_filled, Genuine F q
/-- The run in which the first `m` chunks of `F` arrive in order on socket 0, one per
pass of the main loop, and none is dropped (the draw `50` is not below the rate). -/
def in_order_run (F : List Byte) (m : Nat) : List (Option Arrival × Option Arrival) :=
  (List.range m).map
    (fun k => (some ⟨(Client.create_packet F (PACKET_SIZE * k) 0).1, 50⟩, none))

/-- A file of 2147483700 zero bytes (a little over 2 GiB). -/
def big_file : List Byte := List.replicate 2147483700 0
/-- A file of 150 bytes: chunk 0 has 100 bytes, chunk 1 has 50 bytes and is the last. -/
def file150 : List Byte := List.replicate 150 7

/-- The two chunks of `file150` arriving in one pass of the main loop, chunk 0 on
socket 0 and the last chunk on socket 1, neither dropped by the loss simulator. -/
def both_chunks_run : List (Option Arrival × Option Arrival) :=
  [(some ⟨(Client.create_packet file150 0 0).1, 50⟩,
    some ⟨(Client.create_packet file150 100 1).1, 50⟩)]

/-- The two chunks of `file150` arriving in the first pass of the main loop: chunk 0
on socket 0 is dropped by the loss simulator (draw `5`), the last chunk on socket 1
is accepted (draw `50`). -/
def early_last_run : List (Option Arrival × Option Arrival) :=
  [(some ⟨(Client.create_packet file150 0 0).1, 5⟩,
    some ⟨(Client.create_packet file150 100 1).1, 50⟩)]

/-- A file of 600 bytes: six full chunks and an empty last chunk. -/
def file600 : List Byte := List.replicate 600 7

/-- The chunk of `file600` at offset `100 * k`, sent on channel `k % 2`. -/
def chunk600 (k : Nat) : Packet := (Client.create_packet file600 (PACKET_SIZE * k) (k % 2)).1

/-- The receiver after chunks 1, 2, 3 and 4 of `file600` have arrived ahead of chunk 0
and have been stored in the buffer, which is full then. -/
def full_buffer_state : Receiver :=
  main_loop Receiver.init
    [(some ⟨chunk600 2, 50⟩, some ⟨chunk600 1, 50⟩),
     (some ⟨chunk600 4, 50⟩, some ⟨chunk600 3, 50⟩)]

/-- The state invariant of the receiver's buffer, for arbitrary packets: the buffer
array has its four slots, at most four are in use, `expected_seq` is a 32-bit
`int`, the entries in use are sorted by `seq_no`, and each of them has a `seq_no`
above `expected_seq` as the receiver compares them. -/
def BufInv (st : Receiver) : Prop :=
  st.buffer.length = TMP_BUFFER_SIZE ∧ st.buf_filled ≤ TMP_BUFFER_SIZE ∧
  -2147483648 ≤ st.expected_seq ∧ st.expected_seq < 2147483648 ∧
  SortedBySeq (st.buffer.take st.buf_filled) ∧
  ∀ q ∈ st.buffer.take st.buf_filled, toU32 st.expected_seq < q.seq_no

/-- The state invariant of the receiver about `last_seq`, for genuine packets of the
file `F`: either `last_seq` still has its initial value, or it is the offset of the
last chunk of `F`, the loop has been told to stop and all of `F` is expected to
have been written. -/
def LastInv (F : List Byte) (st : Receiver) : Prop :=
  st.last_seq = INT_MAX ∨
  (st.last_seq = ((PACKET_SIZE * (F.length / PACKET_SIZE) : Nat) : Int) ∧
    st.is_last_ackd = 1 ∧ st.expected_seq = (F.length : Int))

/-- The packets that one left-to-right pass over `l` starting at offset `e` writes, as
the specification describes the pass: a packet is written when its `seq_no` is the
current offset, and the offset then advances by its `payload_size`. Offsets are
unbounded integers here. -/
def spec_written : Int → List Packet → List Packet
  | _, [] => []
  | e, p :: l =>
    if (p.seq_no : Int) = e then p :: spec_written (e + (p.payload_size : Int)) l
    else spec_written e l

/-- The packets that the pass of `spec_written` leaves unwritten. -/
def spec_unwritten : Int → List Packet → List Packet
  | _, [] => []
  | e, p :: l =>
    if (p.seq_no : Int) = e then spec_unwritten (e + (p.payload_size : Int)) l
    else p :: spec_unwritten e l

/-- The sum of the payload sizes of a list of packets. -/
def total_payload_size : List Packet → Int
  | [] => 0
  | p :: l => (p.payload_size : Int) + total_payload_size l

/-- The bytes that `fwrite(payload, 1, payload_size, fp)` puts out for each packet of a
list, in the order of the list. -/
def written_bytes : List Packet → List Byte
  | [] => []
  | p :: l => p.payload.take p.payload_size ++ written_bytes l

/-- A packet with `seq_no` 2147483600 carrying a full payload of 100 bytes. -/
def high_packet : Packet :=
  { payload_size := 100, seq_no := 2147483600, data_or_ack := 0, channel_no := 0, is_last := 0,
    payload := List.replicate 100 0 }

/-- A packet with the three payload bytes `b` at offset `seq`. -/
def small_packet (seq : Nat) (b : Byte) : Packet :=
  { payload_size := 3, seq_no := seq, data_or_ack := 0, channel_no := 0, is_last := 0,
    payload := [b, b, b] }

/-- A sorted buffer: a stale packet at offset 0, packets at offsets 3 and 6 that follow one
another, and a packet at offset 12 beyond a gap. -/
def gap_buffer : List Packet :=
  [small_packet 0 1, small_packet 3 2, small_packet 6 3, small_packet 12 4]

/-- A file of 2147484200 zero bytes, 500 bytes more than `big_file`. -/
def wrap_file : List Byte := List.replicate 2147484200 0

/-- The `k`-th chunk of `wrap_file`, as the sender creates it. -/
def wrap_chunk (k : Nat) : Packet := (Client.create_packet wrap_file (PACKET_SIZE * k) 0).1

/-- A run for `wrap_file`: the first 21474837 chunks arrive in order on socket 0, which takes
`expected_seq` past `INT_MAX`, and then the chunks 21474838 to 21474841 arrive while the
chunk 21474837 is still awaited. -/
def wrapped_run : List (Option Arrival × Option Arrival) :=
  in_order_run wrap_file 21474837 ++
    [(some ⟨wrap_chunk 21474838, 50⟩, none), (some ⟨wrap_chunk 21474839, 50⟩, none),
     (some ⟨wrap_chunk 21474840, 50⟩, none), (some ⟨wrap_chunk 21474841, 50⟩, none)]

end Server

/-! ## Theorems -/

theorem toU32_of_range {x : Int} (h0 : 0 ≤ x) (h1 : x < 4294967296) : toU32 x = x.toNat := by
  unfold toU32
  rw [Int.emod_eq_of_lt h0 h1]

theorem toU32_natCast {n : Nat} (h : n < 4294967296) : toU32 (n : Int) = n := by
  rw [toU32_of_range (by omega) (by omega)]; simp

theorem toInt32_of_range {x : Int} (h0 : -2147483648 ≤ x) (h1 : x < 2147483648) :
    toInt32 x = x := by
  unfold toInt32
  rw [Int.emod_eq_of_lt (by omega) (by omega)]; omega

namespace Server

theorem flush_loop_index (buffer : List Packet) (buf_filled : Nat) :
    ∀ (fuel i : Nat) (out : List Byte) (e : Int), i ≤ buf_filled → buf_filled ≤ i + fuel →
      (flush_loop buffer buf_filled fuel i out e).1 = buf_filled := by
  intro fuel
  induction fuel with
  | zero => intro i out e h1 h2; simp only [flush_loop]; omega
  | succ n ih =>
    intro i out e h1 h2
    simp only [flush_loop]
    split
    · split
      · exact ih _ _ _ (by omega) (by omega)
      · exact ih _ _ _ (by omega) (by omega)
    · simp only; omega

theorem buffer_flush_buf_filled (output : List Byte) (buffer : List Packet) (buf_filled : Nat)
    (e : Int) : (buffer_flush output buffer buf_filled e).buf_filled = 0 := by
  simp [buffer_flush, flush_loop_index buffer buf_filled buf_filled 0 output e (by omega) (by omega)]

theorem buffer_flush_buffer (output : List Byte) (buffer : List Packet) (buf_filled : Nat)
    (e : Int) : (buffer_flush output buffer buf_filled e).buffer = buffer := by
  simp [buffer_flush, flush_loop_index buffer buf_filled buf_filled 0 output e (by omega) (by omega),
    compress_loop]


theorem insert_loop_spec (pkt : Packet) :
    ∀ (A : List Packet) (h : Packet) (B : List Packet),
      (insert_loop pkt A.length (A ++ h :: B)).1 ≤ A.length ∧
      (insert_loop pkt A.length (A ++ h :: B)).2.set (insert_loop pkt A.length (A ++ h :: B)).1 pkt
        = A.take (insert_loop pkt A.length (A ++ h :: B)).1 ++
            pkt :: A.drop (insert_loop pkt A.length (A ++ h :: B)).1 ++ B ∧
      (∀ q ∈ A.drop (insert_loop pkt A.length (A ++ h :: B)).1, pkt.seq_no < q.seq_no) ∧
      (∀ x, (A.take (insert_loop pkt A.length (A ++ h :: B)).1).getLast? = some x →
        x.seq_no ≤ pkt.seq_no) := by
  intro A
  induction A using List.reverseRecOn with
  | nil => intro h B; simp [insert_loop]
  | append_singleton A x ih =>
    intro h B
    have hget : (A ++ [x] ++ h :: B).getD A.length default = x := by
      rw [List.append_assoc, List.getD_eq_getElem?_getD, List.getElem?_append_right (le_refl _)]
      simp
    have hlen : (A ++ [x]).length = A.length + 1 := by simp
    have htake : (A ++ [x]).take (A.length + 1) = A ++ [x] := by
      rw [← hlen]; exact List.take_length _
    rw [hlen]
    simp only [insert_loop, hget]
    split
    · rename_i hgt
      have hset : (A ++ [x] ++ h :: B).set (A.length + 1) x = A ++ x :: (x :: B) := by
        simp [List.set_append]
      rw [hset]
      obtain ⟨h1, h2, h3, h4⟩ := ih x (x :: B)
      generalize (insert_loop pkt A.length (A ++ x :: x :: B)) = r at h1 h2 h3 h4
      refine ⟨by omega, ?_, ?_, ?_⟩
      · rw [h2, List.take_append_of_le_length h1, List.drop_append_of_le_length h1]; simp
      · rw [List.drop_append_of_le_length h1]
        intro q hq
        rcases List.mem_append.1 hq with hq | hq
        · exact h3 q hq
        · simp at hq; subst hq; exact hgt
      · rw [List.take_append_of_le_length h1]; exact h4
    · rename_i hgt
      refine ⟨le_refl _, ?_, ?_, ?_⟩
      · simp only [htake]; simp [List.set_append]
      · simp
      · intro y hy
        simp only at hy
        rw [htake] at hy
        simp at hy; subst hy; omega


theorem insert_packet_to_buffer_eq (pkt : Packet) (buffer : List Packet) (n : Nat)
    (hn : n < buffer.length) :
    ∃ k, k ≤ n ∧
      (insert_packet_to_buffer pkt buffer n).1 =
        (buffer.take n).take k ++ pkt :: (buffer.take n).drop k ++ buffer.drop (n + 1) ∧
      (∀ q ∈ (buffer.take n).drop k, pkt.seq_no < q.seq_no) ∧
      (∀ x, ((buffer.take n).take k).getLast? = some x → x.seq_no ≤ pkt.seq_no) := by
  have hsplit : buffer = buffer.take n ++ buffer[n] :: buffer.drop (n + 1) := by
    rw [← List.drop_eq_getElem_cons hn, List.take_append_drop]
  have hl : (buffer.take n).length = n := by
    rw [List.length_take]; omega
  obtain ⟨h1, h2, h3, h4⟩ := insert_loop_spec pkt (buffer.take n) buffer[n] (buffer.drop (n + 1))
  rw [← hsplit, hl] at h1 h2 h3 h4
  exact ⟨(insert_loop pkt n buffer).1, h1, h2, h3, h4⟩


theorem sorted_insert_middle (pkt : Packet) (A : List Packet) (k : Nat)
    (hs : SortedBySeq A)
    (h3 : ∀ q ∈ A.drop k, pkt.seq_no < q.seq_no)
    (h4 : ∀ x, (A.take k).getLast? = some x → x.seq_no ≤ pkt.seq_no) :
    SortedBySeq (A.take k ++ pkt :: A.drop k) := by
  have hT : SortedBySeq (A.take k) := List.Pairwise.sublist (List.take_sublist k A) hs
  have hD : SortedBySeq (A.drop k) := List.Pairwise.sublist (List.drop_sublist k A) hs
  have hle : ∀ a ∈ A.take k, a.seq_no ≤ pkt.seq_no := by
    intro a ha
    rcases List.eq_nil_or_concat (A.take k) with hnil | ⟨L, b, hb⟩
    · rw [hnil] at ha; simp at ha
    · rw [List.concat_eq_append] at hb
      rw [hb] at ha hT h4
      have hbl : b.seq_no ≤ pkt.seq_no := h4 b (by simp)
      rcases List.mem_append.1 ha with ha | ha
      · have := (List.pairwise_append.1 hT).2.2 a ha b (by simp)
        omega
      · simp at ha; subst ha; exact hbl
  unfold SortedBySeq
  rw [List.pairwise_append]
  refine ⟨hT, ?_, ?_⟩
  · rw [List.pairwise_cons]
    exact ⟨fun q hq => Nat.le_of_lt (h3 q hq), hD⟩
  · intro a ha b hb
    rcases List.mem_cons.1 hb with hb | hb
    · subst hb; exact hle a ha
    · have := h3 b hb
      have := hle a ha
      omega

/-- C9. Inserting a packet into a buffer array of capacity TMP_BUFFER_SIZE whose
first n entries (n below the capacity) are sorted by seq_no gives n + 1 entries that
are sorted by seq_no and are the old entries with the new packet put in between
them: a permutation of the old entries plus the packet, the old entries keeping
their order. The slots after these are not changed. -/
theorem insert_packet_to_buffer_sorted (pkt : Packet) (buffer : List Packet) (n : Nat)
    (hlen : buffer.length = TMP_BUFFER_SIZE) (hn : n < TMP_BUFFER_SIZE)
    (hs : SortedBySeq (buffer.take n)) :
    (insert_packet_to_buffer pkt buffer n).2 = n + 1 ∧
    (insert_packet_to_buffer pkt buffer n).1.length = TMP_BUFFER_SIZE ∧
    SortedBySeq ((insert_packet_to_buffer pkt buffer n).1.take (n + 1)) ∧
    ((insert_packet_to_buffer pkt buffer n).1.take (n + 1)).Perm (buffer.take n ++ [pkt]) ∧
    (∃ k, k ≤ n ∧ (insert_packet_to_buffer pkt buffer n).1.take (n + 1) =
      (buffer.take n).take k ++ pkt :: (buffer.take n).drop k) ∧
    (insert_packet_to_buffer pkt buffer n).1.drop (n + 1) = buffer.drop (n + 1) := by
  have hn' : n < buffer.length := by rw [hlen]; exact hn
  obtain ⟨k, hk, heq, h3, h4⟩ := insert_packet_to_buffer_eq pkt buffer n hn'
  have hl : (buffer.take n).length = n := by rw [List.length_take]; omega
  have hmid : ((buffer.take n).take k ++ pkt :: (buffer.take n).drop k).length = n + 1 := by
    simp only [List.length_append, List.length_cons, List.length_take, List.length_drop]
    omega
  have htake : (insert_packet_to_buffer pkt buffer n).1.take (n + 1) =
      (buffer.take n).take k ++ pkt :: (buffer.take n).drop k := by
    rw [heq]; exact List.take_left' hmid
  have hdrop : (insert_packet_to_buffer pkt buffer n).1.drop (n + 1) = buffer.drop (n + 1) := by
    rw [heq]; exact List.drop_left' hmid
  refine ⟨rfl, ?_, ?_, ?_, ⟨k, hk, htake⟩, hdrop⟩
  · have := congrArg List.length (List.take_append_drop (n + 1) (insert_packet_to_buffer pkt buffer n).1)
    rw [htake, hdrop, List.length_append, hmid, List.length_drop] at this
    omega
  · rw [htake]; exact sorted_insert_middle pkt _ k hs h3 h4
  · rw [htake]
    have h1 : ((buffer.take n).take k ++ pkt :: (buffer.take n).drop k).Perm
        (pkt :: ((buffer.take n).take k ++ (buffer.take n).drop k)) := List.perm_middle
    rw [List.take_append_drop] at h1
    exact h1.trans (List.perm_append_singleton pkt _).symm


theorem take_take_length (X : List Byte) (n : Nat) : X.take (X.take n).length = X.take n := by
  rw [List.length_take]
  rcases Nat.le_total n X.length with h | h
  · rw [Nat.min_eq_left h]
  · rw [Nat.min_eq_right h, List.take_length, List.take_of_length_le h]

theorem genuine_fields {F : List Byte} {p : Packet} (hF : F.length < 4294967296)
    (hp : Genuine F p) :
    p.seq_no ≤ F.length ∧ p.payload = (F.drop p.seq_no).take PACKET_SIZE ∧
    p.payload_size = p.payload.length := by
  obtain ⟨k, chan, hk, rfl⟩ := hp
  have h1 : PACKET_SIZE * k ≤ F.length := by
    have := Nat.mul_div_le F.length PACKET_SIZE
    calc PACKET_SIZE * k ≤ PACKET_SIZE * (F.length / PACKET_SIZE) := Nat.mul_le_mul_left _ hk
      _ ≤ F.length := this
  have h2 : PACKET_SIZE * k % 4294967296 = PACKET_SIZE * k := Nat.mod_eq_of_lt (by omega)
  simp only [Client.create_packet, h2]
  exact ⟨h1, trivial, trivial⟩

theorem write_chunk {F : List Byte} {p : Packet} (hF : F.length < 2147483648)
    (hp : Genuine F p) (e : Int) (h0 : 0 ≤ e) (h1 : e ≤ (F.length : Int))
    (hseq : p.seq_no = toU32 e) :
    F.take e.toNat ++ p.payload.take p.payload_size =
      F.take (toInt32 (e + p.payload_size)).toNat ∧
    e ≤ toInt32 (e + p.payload_size) ∧ toInt32 (e + p.payload_size) ≤ (F.length : Int) := by
  obtain ⟨g1, g2, g3⟩ := genuine_fields (by omega) hp
  rw [toU32_of_range h0 (by omega)] at hseq
  have hsz : p.payload_size ≤ F.length - e.toNat := by
    rw [g3, g2, hseq, List.length_take, List.length_drop]; omega
  have hle : e.toNat ≤ F.length := by omega
  have hw : toInt32 (e + p.payload_size) = e + p.payload_size :=
    toInt32_of_range (by omega) (by omega)
  rw [hw]
  refine ⟨?_, by omega, by omega⟩
  have hnat : (e + (p.payload_size : Int)).toNat = e.toNat + p.payload_size := by omega
  rw [hnat, List.take_add]
  congr 1
  rw [g3, List.take_length, g2, hseq, take_take_length]


theorem getD_mem_take (buffer : List Packet) (n i : Nat) (hn : n ≤ buffer.length) (hi : i < n) :
    buffer.getD i default ∈ buffer.take n := by
  have hi' : i < buffer.length := by omega
  have h1 : buffer.getD i default = buffer[i] := by
    rw [List.getD_eq_getElem?_getD, List.getElem?_eq_getElem hi']; rfl
  have h2 : i < (buffer.take n).length := by rw [List.length_take]; omega
  have h3 : (buffer.take n)[i] = buffer[i] := by simp
  rw [h1, ← h3]
  exact List.getElem_mem h2

theorem flush_loop_inv {F : List Byte} (hF : F.length < 2147483648) (buffer : List Packet)
    (buf_filled : Nat) (hn : buf_filled ≤ buffer.length)
    (hg : ∀ q ∈ buffer.take buf_filled, Genuine F q) :
    ∀ (fuel i : Nat) (e : Int), 0 ≤ e → e ≤ (F.length : Int) →
      (flush_loop buffer buf_filled fuel i (F.take e.toNat) e).2.1 =
        F.take (flush_loop buffer buf_filled fuel i (F.take e.toNat) e).2.2.toNat ∧
      e ≤ (flush_loop buffer buf_filled fuel i (F.take e.toNat) e).2.2 ∧
      (flush_loop buffer buf_filled fuel i (F.take e.toNat) e).2.2 ≤ (F.length : Int) := by
  intro fuel
  induction fuel with
  | zero => intro i e h0 h1; simp [flush_loop, h1]
  | succ n ih =>
    intro i e h0 h1
    simp only [flush_loop]
    split
    · rename_i hi
      split
      · rename_i hseq
        have hp := hg _ (getD_mem_take buffer buf_filled i hn hi)
        obtain ⟨w1, w2, w3⟩ := write_chunk hF hp e h0 h1 hseq
        rw [w1]
        obtain ⟨r1, r2, r3⟩ := ih (i + 1) _ (by omega) w3
        exact ⟨r1, by omega, r3⟩
      · exact ih (i + 1) e h0 h1
    · simp [h1]

theorem buffer_flush_inv {F : List Byte} (hF : F.length < 2147483648) (buffer : List Packet)
    (buf_filled : Nat) (hn : buf_filled ≤ buffer.length)
    (hg : ∀ q ∈ buffer.take buf_filled, Genuine F q) (e : Int) (h0 : 0 ≤ e)
    (h1 : e ≤ (F.length : Int)) :
    (buffer_flush (F.take e.toNat) buffer buf_filled e).output =
        F.take (buffer_flush (F.take e.toNat) buffer buf_filled e).expected_seq.toNat ∧
      e ≤ (buffer_flush (F.take e.toNat) buffer buf_filled e).expected_seq ∧
      (buffer_flush (F.take e.toNat) buffer buf_filled e).expected_seq ≤ (F.length : Int) :=
  flush_loop_inv hF buffer buf_filled hn hg buf_filled 0 e h0 h1

theorem handle_packet_inv {F : List Byte} (hF : F.length < 2147483648) (fd : Nat)
    (st : Receiver) (pkt : Packet) (rand : Nat) (hst : Inv F st) (hp : Genuine F pkt) :
    Inv F (handle_packet fd st pkt rand) ∧
    st.expected_seq ≤ (handle_packet fd st pkt rand).expected_seq := by
  obtain ⟨i1, i2, i3, i4, i5, i6⟩ := hst
  unfold handle_packet
  split
  · split
    · exact ⟨⟨i1, i2, i3, i4, i5, i6⟩, le_refl _⟩
    · split
      · rename_i hseq
        obtain ⟨w1, w2, w3⟩ := write_chunk hF hp st.expected_seq i3 i4 hseq
        simp only [i5, w1]
        obtain ⟨r1, r2, r3⟩ := buffer_flush_inv hF st.buffer st.buf_filled (by omega) i6
          (toInt32 (st.expected_seq + pkt.payload_size)) (by omega) w3
        unfold Inv
        dsimp only
        refine ⟨⟨?_, ?_, by omega, r3, r1, ?_⟩, by omega⟩
        · rw [buffer_flush_buffer]; exact i1
        · rw [buffer_flush_buf_filled]; omega
        · rw [buffer_flush_buf_filled]; simp
      · split
        · rename_i hlt
          obtain ⟨k, hk, heq, -, -⟩ := insert_packet_to_buffer_eq pkt st.buffer st.buf_filled
            (by omega)
          have hsnd : (insert_packet_to_buffer pkt st.buffer st.buf_filled).2 = st.buf_filled + 1 :=
            rfl
          have hmid : ((st.buffer.take st.buf_filled).take k ++
              pkt :: (st.buffer.take st.buf_filled).drop k).length = st.buf_filled + 1 := by
            simp only [List.length_append, List.length_cons, List.length_take, List.length_drop]
            omega
          unfold Inv
          dsimp only
          refine ⟨⟨?_, ?_, i3, i4, i5, ?_⟩, le_refl _⟩
          · have := congrArg List.length heq
            simp only [List.length_append, List.length_cons, List.length_take,
              List.length_drop] at this
            omega
          · simp only [hsnd]; omega
          · simp only [hsnd]
            rw [heq, List.take_left' hmid]
            intro q hq
            rcases List.mem_append.1 hq with hq | hq
            · exact i6 q (List.mem_of_mem_take hq)
            · rcases List.mem_cons.1 hq with hq | hq
              · subst hq; exact hp
              · exact i6 q (List.mem_of_mem_drop hq)
        · exact ⟨⟨i1, i2, i3, i4, i5, i6⟩, le_refl _⟩
  · exact ⟨⟨i1, i2, i3, i4, i5, i6⟩, le_refl _⟩


theorem init_inv (F : List Byte) : Inv F Receiver.init := by
  refine ⟨by simp [Receiver.init], by simp [Receiver.init], by simp [Receiver.init],
    by simp [Receiver.init], by simp [Receiver.init], ?_⟩
  intro q hq
  simp [Receiver.init] at hq

theorem iteration_inv {F : List Byte} (hF : F.length < 2147483648) (st : Receiver)
    (a0 a1 : Option Arrival) (hst : Inv F st)
    (h0 : ∀ a, a0 = some a → Genuine F a.pkt) (h1 : ∀ a, a1 = some a → Genuine F a.pkt) :
    Inv F (iteration st a0 a1) ∧ st.expected_seq ≤ (iteration st a0 a1).expected_seq := by
  unfold iteration
  cases a0 with
  | none =>
    cases a1 with
    | none => exact ⟨hst, le_refl _⟩
    | some b => exact handle_packet_inv hF 1 st b.pkt b.rand hst (h1 b rfl)
  | some a =>
    obtain ⟨k1, k2⟩ := handle_packet_inv hF 0 st a.pkt a.rand hst (h0 a rfl)
    cases a1 with
    | none => exact ⟨k1, k2⟩
    | some b =>
      obtain ⟨k3, k4⟩ := handle_packet_inv hF 1 _ b.pkt b.rand k1 (h1 b rfl)
      exact ⟨k3, le_trans k2 k4⟩

theorem main_loop_inv {F : List Byte} (hF : F.length < 2147483648) :
    ∀ (evs : List (Option Arrival × Option Arrival)) (st : Receiver), Inv F st →
      GenuineRun F evs →
      Inv F (main_loop st evs) ∧ st.expected_seq ≤ (main_loop st evs).expected_seq := by
  intro evs
  induction evs with
  | nil => intro st hst _; exact ⟨hst, le_refl _⟩
  | cons ev rest ih =>
    intro st hst hg
    simp only [main_loop]
    split
    · have hev := hg ev (List.mem_cons_self _ _)
      obtain ⟨k1, k2⟩ := iteration_inv hF st ev.1 ev.2 hst hev.1 hev.2
      obtain ⟨k3, k4⟩ := ih _ k1 (fun e he => hg e (List.mem_cons_of_mem _ he))
      exact ⟨k3, le_trans k2 k4⟩
    · exact ⟨hst, le_refl _⟩

theorem main_loop_append :
    ∀ (l1 l2 : List (Option Arrival × Option Arrival)) (st : Receiver),
      main_loop st (l1 ++ l2) = main_loop (main_loop st l1) l2 := by
  intro l1
  induction l1 with
  | nil => intro l2 st; rfl
  | cons ev rest ih =>
    intro l2 st
    simp only [List.cons_append, main_loop]
    split
    · exact ih l2 _
    · rename_i h
      cases l2 with
      | nil => rfl
      | cons e r => simp only [main_loop, if_neg h]


theorem in_order_step (F : List Byte) (m : Nat) (acks : List (Nat × Packet))
    (h1 : PACKET_SIZE * (m + 1) ≤ F.length) (h2 : PACKET_SIZE * m < 2147483647) :
    ∃ acks1, handle_packet 0
      { buffer := List.replicate TMP_BUFFER_SIZE default, expected_seq := ((PACKET_SIZE * m : Nat) : Int),
        buf_filled := 0, is_last_ackd := 0, last_seq := INT_MAX,
        output := F.take (PACKET_SIZE * m), acks := acks }
      (Client.create_packet F (PACKET_SIZE * m) 0).1 50 =
      { buffer := List.replicate TMP_BUFFER_SIZE default,
        expected_seq := toInt32 ((PACKET_SIZE * (m + 1) : Nat) : Int),
        buf_filled := 0, is_last_ackd := 0, last_seq := INT_MAX,
        output := F.take (PACKET_SIZE * (m + 1)), acks := acks1 } := by
  have hacc : accept_or_drop 50 ≠ 1 := by decide
  simp only [PACKET_SIZE] at *
  have hmod : 100 * m % 4294967296 = 100 * m := Nat.mod_eq_of_lt (by omega)
  have hu : toU32 ((100 * m : Nat) : Int) = 100 * m := toU32_natCast (by omega)
  have hlen : ((F.drop (100 * m)).take 100).length = 100 := by
    rw [List.length_take, List.length_drop]; omega
  have hout : F.take (100 * m) ++ (F.drop (100 * m)).take 100 =
      F.take (100 * (m + 1)) := by
    rw [Nat.mul_succ, List.take_add]
  have hnd : ¬ ((100 * m : Nat) : Int) ≥ INT_MAX := by
    simp only [INT_MAX]; omega
  have hcast : ((100 * m : Nat) : Int) + ((100 : Nat) : Int) =
      ((100 * (m + 1) : Nat) : Int) := by
    rw [Nat.mul_succ]; push_cast; rfl
  refine ⟨acks ++ [(0, create_packet (100 * m) 0)], ?_⟩
  unfold handle_packet
  rw [if_pos hacc]
  simp only [Client.create_packet, hmod, hu, hlen, lt_irrefl, if_false, if_true,
    ne_eq, not_true_eq_false, hnd, decide_False, Bool.false_eq_true, List.take_length,
    buffer_flush, flush_loop, compress_loop, Nat.sub_self, hcast, PACKET_SIZE,
    List.take_take, Nat.min_self, hout]


theorem main_loop_in_order_run (F : List Byte) :
    ∀ m : Nat, PACKET_SIZE * m ≤ F.length → PACKET_SIZE * m < 2147483648 →
      ∃ acks, main_loop Receiver.init (in_order_run F m) =
        { buffer := List.replicate TMP_BUFFER_SIZE default,
          expected_seq := ((PACKET_SIZE * m : Nat) : Int),
          buf_filled := 0, is_last_ackd := 0, last_seq := INT_MAX,
          output := F.take (PACKET_SIZE * m), acks := acks } := by
  intro m
  induction m with
  | zero => intro _ _; exact ⟨[], by simp [in_order_run, main_loop, Receiver.init]⟩
  | succ n ih =>
    intro h1 h2
    obtain ⟨acks, hrun⟩ := ih (by simp only [PACKET_SIZE] at *; omega)
      (by simp only [PACKET_SIZE] at *; omega)
    obtain ⟨acks1, hstep⟩ := in_order_step F n acks h1 (by simp only [PACKET_SIZE] at *; omega)
    have hw : toInt32 ((PACKET_SIZE * (n + 1) : Nat) : Int) = ((PACKET_SIZE * (n + 1) : Nat) : Int) :=
      toInt32_of_range (by omega) (by omega)
    refine ⟨acks1, ?_⟩
    have hsplit : in_order_run F (n + 1) = in_order_run F n ++
        [(some ⟨(Client.create_packet F (PACKET_SIZE * n) 0).1, 50⟩, none)] := by
      simp [in_order_run, List.range_succ]
    rw [hsplit, main_loop_append, hrun]
    simp only [main_loop, iteration, if_true, hstep, hw]

theorem in_order_run_genuine (F : List Byte) (m : Nat) (h : PACKET_SIZE * m ≤ F.length) :
    GenuineRun F (in_order_run F m) := by
  intro ev hev
  simp only [in_order_run, List.mem_map, List.mem_range] at hev
  obtain ⟨k, hk, rfl⟩ := hev
  refine ⟨?_, by simp⟩
  intro a ha
  simp only [Option.some.injEq] at ha
  subst ha
  refine ⟨k, 0, ?_, rfl⟩
  rw [Nat.le_div_iff_mul_le (by decide)]
  simp only [PACKET_SIZE] at *
  omega


theorem file150_length : file150.length = 150 := List.length_replicate _ _

/-- C2, the claim as stated fails for a file of more than INT_MAX bytes: after
21474836 chunks of big_file have arrived in order the main loop is still running
with expected_seq = 2147483600, and the next genuine chunk makes the int
expected_seq wrap around to a negative value, so expected_seq decreases. -/
theorem expected_seq_decreases_on_big_file :
    GenuineRun big_file (in_order_run big_file 21474836) ∧
    Genuine big_file (Client.create_packet big_file (PACKET_SIZE * 21474836) 0).1 ∧
    (main_loop Receiver.init (in_order_run big_file 21474836)).is_last_ackd = 0 ∧
    (main_loop Receiver.init (in_order_run big_file 21474836)).expected_seq = 2147483600 ∧
    (handle_packet 0 (main_loop Receiver.init (in_order_run big_file 21474836))
      (Client.create_packet big_file (PACKET_SIZE * 21474836) 0).1 50).expected_seq
      = -2147483596 := by
  have hlen : big_file.length = 2147483700 := List.length_replicate _ _
  have h1 : PACKET_SIZE * 21474836 ≤ big_file.length := by rw [hlen]; decide
  have h2 : PACKET_SIZE * (21474836 + 1) ≤ big_file.length := by rw [hlen]; decide
  obtain ⟨acks, hrun⟩ := main_loop_in_order_run big_file 21474836 h1 (by decide)
  obtain ⟨acks1, hstep⟩ := in_order_step big_file 21474836 acks h2 (by decide)
  refine ⟨in_order_run_genuine big_file 21474836 h1, ⟨21474836, 0, ?_, rfl⟩, ?_, ?_, ?_⟩
  · rw [hlen]; decide
  · rw [hrun]
  · rw [hrun]; rfl
  · rw [hrun, hstep]
    show toInt32 ((PACKET_SIZE * (21474836 + 1) : Nat) : Int) = -2147483596
    decide

/-- C2 (amended). For a file F of fewer than 2^31 bytes and genuine packets of F, in
every state the main loop reaches the bytes written are exactly the first
expected_seq bytes of F, with 0 ≤ expected_seq ≤ |F|, and a further pass of the
loop body does not decrease expected_seq and only appends to the output. -/
theorem receiver_writes_in_order (F : List Byte)
    (evs : List (Option Arrival × Option Arrival)) (hF : F.length < 2147483648)
    (hg : GenuineRun F evs) :
    (main_loop Receiver.init evs).output =
      F.take (main_loop Receiver.init evs).expected_seq.toNat ∧
    0 ≤ (main_loop Receiver.init evs).expected_seq ∧
    (main_loop Receiver.init evs).expected_seq ≤ (F.length : Int) ∧
    ∀ a0 a1 : Option Arrival, (∀ a, a0 = some a → Genuine F a.pkt) →
      (∀ a, a1 = some a → Genuine F a.pkt) →
      (main_loop Receiver.init evs).expected_seq ≤
        (iteration (main_loop Receiver.init evs) a0 a1).expected_seq ∧
      ∃ w, (iteration (main_loop Receiver.init evs) a0 a1).output =
        (main_loop Receiver.init evs).output ++ w := by
  obtain ⟨⟨i1, i2, i3, i4, i5, i6⟩, -⟩ := main_loop_inv hF evs Receiver.init (init_inv F) hg
  refine ⟨i5, i3, i4, ?_⟩
  intro a0 a1 h0 h1
  obtain ⟨⟨j1, j2, j3, j4, j5, j6⟩, hmono⟩ :=
    iteration_inv hF (main_loop Receiver.init evs) a0 a1 ⟨i1, i2, i3, i4, i5, i6⟩ h0 h1
  refine ⟨hmono, ?_⟩
  generalize (iteration (main_loop Receiver.init evs) a0 a1) = st1 at j3 j4 j5 hmono
  generalize (main_loop Receiver.init evs) = st at i3 i4 i5 hmono
  refine ⟨(F.drop st.expected_seq.toNat).take (st1.expected_seq.toNat - st.expected_seq.toNat), ?_⟩
  rw [j5, i5, ← List.take_add]
  congr 1
  omega

set_option maxRecDepth 100000 in
/-- C2, an instance: the two chunks of file150 arriving in one pass of the loop. -/
theorem receiver_writes_in_order_witness :
    file150.length < 2147483648 ∧ GenuineRun file150 both_chunks_run ∧
    (main_loop Receiver.init both_chunks_run).output =
      file150.take (main_loop Receiver.init both_chunks_run).expected_seq.toNat ∧
    (main_loop Receiver.init both_chunks_run).output = file150 :=
  have hlen : file150.length < 2147483648 := by rw [file150_length]; decide
  have hgen : GenuineRun file150 both_chunks_run := by
    intro ev hev
    simp only [both_chunks_run, List.mem_singleton] at hev
    subst hev
    refine ⟨?_, ?_⟩
    · intro a ha
      simp only [Option.some.injEq] at ha
      subst ha
      exact ⟨0, 0, Nat.zero_le _, rfl⟩
    · intro a ha
      simp only [Option.some.injEq] at ha
      subst ha
      exact ⟨1, 1, by rw [file150_length]; decide, rfl⟩
  ⟨hlen, hgen, (receiver_writes_in_order file150 both_chunks_run hlen hgen).1, by decide⟩


/-- C1, the failing run: chunk 0 of file150 is dropped by the loss simulator and the
last chunk (offset 100, is_last) arrives ahead of it. The out-of-order branch sets
is_last_ackd, so the main loop stops, with nothing written to the output. -/
theorem receiver_stops_before_output_complete :
    GenuineRun file150 early_last_run ∧
    (main_loop Receiver.init early_last_run).is_last_ackd = 1 ∧
    (main_loop Receiver.init early_last_run).output = [] ∧
    (main_loop Receiver.init early_last_run).output ≠ file150 := by
  refine ⟨?_, by decide, by decide, by decide⟩
  intro ev hev
  simp only [early_last_run, List.mem_singleton] at hev
  subst hev
  refine ⟨?_, ?_⟩
  · intro a ha
    simp only [Option.some.injEq] at ha
    subst ha
    exact ⟨0, 0, Nat.zero_le _, rfl⟩
  · intro a ha
    simp only [Option.some.injEq] at ha
    subst ha
    exact ⟨1, 1, by rw [file150_length]; decide, rfl⟩

/-- C3, the failing input: the buffer holds one packet, chunk 2 of file600 (offset
200), and the expected offset is 100. The flush writes nothing, and still the
fill count is 0 afterwards: the packet that was not written is gone. -/
theorem buffer_flush_discards_unwritten :
    (buffer_flush (file600.take 100) [chunk600 2, default, default, default] 1 100).output
      = file600.take 100 ∧
    (buffer_flush (file600.take 100) [chunk600 2, default, default, default] 1 100).expected_seq
      = 100 ∧
    (buffer_flush (file600.take 100) [chunk600 2, default, default, default] 1 100).buf_filled
      = 0 := by
  decide

/-- C4. A packet whose seq_no is below expected_seq (as the receiver compares them,
expected_seq converted to unsigned int, which leaves a value in 0..INT_MAX as it is)
and which the loss simulator does not drop leaves the whole receiver state as it
was: expected_seq, buffer, buf_filled, last_seq, is_last_ackd, the output written
and the acknowledgments sent. -/
theorem duplicate_packet_is_discarded (fd : Nat) (st : Receiver) (pkt : Packet) (rand : Nat)
    (hdup : pkt.seq_no < toU32 st.expected_seq) (hacc : accept_or_drop rand ≠ 1) :
    handle_packet fd st pkt rand = st := by
  unfold handle_packet
  rw [if_pos hacc, if_pos hdup]



/-- C4, an instance: after chunk 0 of file150 has been written (expected_seq = 100),
chunk 0 arrives again and is not dropped by the loss simulator. -/
theorem duplicate_packet_is_discarded_witness :
    (Client.create_packet file150 0 0).1.seq_no <
      toU32 (main_loop Receiver.init (in_order_run file150 1)).expected_seq ∧
    accept_or_drop 50 ≠ 1 ∧
    handle_packet 0 (main_loop Receiver.init (in_order_run file150 1))
      (Client.create_packet file150 0 0).1 50 =
      main_loop Receiver.init (in_order_run file150 1) :=
  ⟨by decide, by decide,
    duplicate_packet_is_discarded 0 (main_loop Receiver.init (in_order_run file150 1))
      (Client.create_packet file150 0 0).1 50 (by decide) (by decide)⟩


/-- C9, an instance: chunk 2 of file600 is inserted between chunks 1 and 3. -/
theorem insert_packet_to_buffer_sorted_witness :
    [chunk600 1, chunk600 3, default, default].length = TMP_BUFFER_SIZE ∧
    2 < TMP_BUFFER_SIZE ∧
    SortedBySeq ([chunk600 1, chunk600 3, default, default].take 2) ∧
    SortedBySeq ((insert_packet_to_buffer (chunk600 2)
      [chunk600 1, chunk600 3, default, default] 2).1.take (2 + 1)) :=
  ⟨by decide, by decide, by decide,
    (insert_packet_to_buffer_sorted (chunk600 2) [chunk600 1, chunk600 3, default, default] 2
      (by decide) (by decide) (by decide)).2.2.1⟩

theorem toInt32_range (x : Int) : -2147483648 ≤ toInt32 x ∧ toInt32 x < 2147483648 := by
  unfold toInt32
  have h1 := Int.emod_nonneg (x + 2147483648) (show (4294967296 : Int) ≠ 0 by decide)
  have h2 := Int.emod_lt_of_pos (x + 2147483648) (show (0 : Int) < 4294967296 by decide)
  constructor <;> omega

theorem flush_loop_range (buffer : List Packet) (buf_filled : Nat) :
    ∀ (fuel i : Nat) (out : List Byte) (e : Int), -2147483648 ≤ e → e < 2147483648 →
      -2147483648 ≤ (flush_loop buffer buf_filled fuel i out e).2.2 ∧
      (flush_loop buffer buf_filled fuel i out e).2.2 < 2147483648 := by
  intro fuel
  induction fuel with
  | zero => intro i out e h0 h1; exact ⟨h0, h1⟩
  | succ n ih =>
    intro i out e h0 h1
    simp only [flush_loop]
    split
    · split
      · exact ih _ _ _ (toInt32_range _).1 (toInt32_range _).2
      · exact ih _ _ _ h0 h1
    · exact ⟨h0, h1⟩

theorem handle_packet_bufinv (fd : Nat) (st : Receiver) (pkt : Packet) (rand : Nat)
    (hst : BufInv st) : BufInv (handle_packet fd st pkt rand) := by
  obtain ⟨i1, i2, i3, i4, i5, i6⟩ := hst
  unfold handle_packet
  split
  · split
    · exact ⟨i1, i2, i3, i4, i5, i6⟩
    · rename_i hnlt
      split
      · obtain ⟨r1, r2⟩ := flush_loop_range st.buffer st.buf_filled st.buf_filled 0
          (st.output ++ pkt.payload.take pkt.payload_size)
          (toInt32 (st.expected_seq + pkt.payload_size)) (toInt32_range _).1 (toInt32_range _).2
        unfold BufInv
        dsimp only
        rw [buffer_flush_buffer, buffer_flush_buf_filled]
        refine ⟨i1, Nat.zero_le _, r1, r2, ?_, ?_⟩
        · simp
        · simp
      · rename_i hne
        split
        · rename_i hlt
          obtain ⟨k, hk, heq, h3, h4⟩ := insert_packet_to_buffer_eq pkt st.buffer st.buf_filled
            (by omega)
          have hsnd : (insert_packet_to_buffer pkt st.buffer st.buf_filled).2 = st.buf_filled + 1 :=
            rfl
          have hmid : ((st.buffer.take st.buf_filled).take k ++
              pkt :: (st.buffer.take st.buf_filled).drop k).length = st.buf_filled + 1 := by
            simp only [List.length_append, List.length_cons, List.length_take, List.length_drop]
            omega
          unfold BufInv
          dsimp only
          refine ⟨?_, ?_, i3, i4, ?_, ?_⟩
          · have := congrArg List.length heq
            simp only [List.length_append, List.length_cons, List.length_take,
              List.length_drop] at this
            omega
          · simp only [hsnd]; omega
          · simp only [hsnd]
            rw [heq, List.take_left' hmid]
            exact sorted_insert_middle pkt _ k i5 h3 h4
          · simp only [hsnd]
            rw [heq, List.take_left' hmid]
            intro q hq
            rcases List.mem_append.1 hq with hq | hq
            · exact i6 q (List.mem_of_mem_take hq)
            · rcases List.mem_cons.1 hq with hq | hq
              · subst hq; omega
              · exact i6 q (List.mem_of_mem_drop hq)
        · exact ⟨i1, i2, i3, i4, i5, i6⟩
  · exact ⟨i1, i2, i3, i4, i5, i6⟩

theorem main_loop_bufinv :
    ∀ (evs : List (Option Arrival × Option Arrival)) (st : Receiver), BufInv st →
      BufInv (main_loop st evs) := by
  intro evs
  induction evs with
  | nil => intro st hst; exact hst
  | cons ev rest ih =>
    intro st hst
    simp only [main_loop]
    split
    · apply ih
      unfold iteration
      cases ev.1 with
      | none =>
        cases ev.2 with
        | none => exact hst
        | some b => exact handle_packet_bufinv 1 st b.pkt b.rand hst
      | some a =>
        cases ev.2 with
        | none => exact handle_packet_bufinv 0 st a.pkt a.rand hst
        | some b =>
          exact handle_packet_bufinv 1 _ b.pkt b.rand (handle_packet_bufinv 0 st a.pkt a.rand hst)
    · exact hst

theorem init_bufinv : BufInv Receiver.init := by
  refine ⟨by simp [Receiver.init], by simp [Receiver.init], by simp [Receiver.init],
    by simp [Receiver.init], by simp [Receiver.init], ?_⟩
  intro q hq
  simp [Receiver.init] at hq

/-- C18. In every state the receiver's main loop reaches, whatever packets arrive and
whatever the loss simulator draws, the buffer array has its TMP_BUFFER_SIZE = 4
slots and buf_filled is at most 4 (so the indices below buf_filled that buffer_flush
reads exist, and so does the index buf_filled that an insertion, made only when
buf_filled < 4, writes at most), the first buf_filled entries are sorted by seq_no
ascending, and every one of them has seq_no strictly greater than expected_seq, both
as integers and as the receiver compares them. -/
theorem buffer_bounded_sorted_ahead (evs : List (Option Arrival × Option Arrival)) :
    (main_loop Receiver.init evs).buffer.length = TMP_BUFFER_SIZE ∧
    (main_loop Receiver.init evs).buf_filled ≤ TMP_BUFFER_SIZE ∧
    (main_loop Receiver.init evs).buf_filled ≤ (main_loop Receiver.init evs).buffer.length ∧
    ((main_loop Receiver.init evs).buf_filled < TMP_BUFFER_SIZE →
      (main_loop Receiver.init evs).buf_filled < (main_loop Receiver.init evs).buffer.length) ∧
    SortedBySeq ((main_loop Receiver.init evs).buffer.take
      (main_loop Receiver.init evs).buf_filled) ∧
    ∀ q ∈ (main_loop Receiver.init evs).buffer.take (main_loop Receiver.init evs).buf_filled,
      (main_loop Receiver.init evs).expected_seq < (q.seq_no : Int) ∧
      toU32 (main_loop Receiver.init evs).expected_seq < q.seq_no := by
  obtain ⟨i1, i2, i3, i4, i5, i6⟩ := main_loop_bufinv evs Receiver.init init_bufinv
  refine ⟨i1, i2, by omega, fun h => by omega, i5, ?_⟩
  intro q hq
  refine ⟨?_, i6 q hq⟩
  have := i6 q hq
  by_cases hneg : (main_loop Receiver.init evs).expected_seq < 0
  · omega
  · rw [toU32_of_range (by omega) (by omega)] at this
    omega

theorem handle_packet_in_order (fd : Nat) (st : Receiver) (pkt : Packet) (rand : Nat)
    (hacc : accept_or_drop rand ≠ 1) (hseq : pkt.seq_no = toU32 st.expected_seq) :
    handle_packet fd st pkt rand =
      { buffer := (buffer_flush (st.output ++ pkt.payload.take pkt.payload_size) st.buffer
          st.buf_filled (toInt32 (st.expected_seq + pkt.payload_size))).buffer,
        expected_seq := (buffer_flush (st.output ++ pkt.payload.take pkt.payload_size) st.buffer
          st.buf_filled (toInt32 (st.expected_seq + pkt.payload_size))).expected_seq,
        buf_filled := (buffer_flush (st.output ++ pkt.payload.take pkt.payload_size) st.buffer
          st.buf_filled (toInt32 (st.expected_seq + pkt.payload_size))).buf_filled,
        is_last_ackd :=
          if st.expected_seq ≥ (if pkt.is_last ≠ 0 then toInt32 pkt.seq_no else st.last_seq)
          then 1 else st.is_last_ackd,
        last_seq := if pkt.is_last ≠ 0 then toInt32 pkt.seq_no else st.last_seq,
        output := (buffer_flush (st.output ++ pkt.payload.take pkt.payload_size) st.buffer
          st.buf_filled (toInt32 (st.expected_seq + pkt.payload_size))).output,
        acks := st.acks ++ [(fd,
          if st.expected_seq ≥ (if pkt.is_last ≠ 0 then toInt32 pkt.seq_no else st.last_seq)
          then { create_packet pkt.seq_no pkt.channel_no with is_last := 1 }
          else create_packet pkt.seq_no pkt.channel_no)] } := by
  unfold handle_packet
  rw [if_pos hacc, if_neg (by omega), if_pos hseq]
  simp only [decide_eq_true_eq]

theorem handle_packet_ahead (fd : Nat) (st : Receiver) (pkt : Packet) (rand : Nat)
    (hacc : accept_or_drop rand ≠ 1) (hseq : toU32 st.expected_seq < pkt.seq_no)
    (hroom : st.buf_filled < TMP_BUFFER_SIZE) :
    handle_packet fd st pkt rand =
      { st with
        buffer := (insert_packet_to_buffer pkt st.buffer st.buf_filled).1,
        buf_filled := (insert_packet_to_buffer pkt st.buffer st.buf_filled).2,
        is_last_ackd := if pkt.is_last ≠ 0 then 1 else st.is_last_ackd,
        acks := st.acks ++ [(fd,
          if pkt.is_last ≠ 0 then { create_packet pkt.seq_no pkt.channel_no with is_last := 1 }
          else create_packet pkt.seq_no pkt.channel_no)] } := by
  unfold handle_packet
  rw [if_pos hacc, if_neg (by omega), if_neg (by omega), if_pos hroom]

theorem handle_packet_ignored (fd : Nat) (st : Receiver) (pkt : Packet) (rand : Nat)
    (h : accept_or_drop rand = 1 ∨ pkt.seq_no < toU32 st.expected_seq ∨
      (toU32 st.expected_seq < pkt.seq_no ∧ ¬ st.buf_filled < TMP_BUFFER_SIZE)) :
    handle_packet fd st pkt rand = st := by
  unfold handle_packet
  rcases h with h | h | ⟨h1, h2⟩
  · rw [if_neg (by simp [h])]
  · simp only [h, if_true, ite_self]
  · have a1 : ¬ pkt.seq_no < toU32 st.expected_seq := by omega
    have a2 : ¬ pkt.seq_no = toU32 st.expected_seq := by omega
    simp only [a1, a2, h2, if_false, ite_self]

theorem total_payload_size_nonneg (l : List Packet) : 0 ≤ total_payload_size l := by
  induction l with
  | nil => simp [total_payload_size]
  | cons p l ih => simp only [total_payload_size]; omega

theorem spec_written_sublist : ∀ (l : List Packet) (e : Int), (spec_written e l).Sublist l := by
  intro l
  induction l with
  | nil => intro e; simp [spec_written]
  | cons p l ih =>
    intro e
    simp only [spec_written]
    split
    · exact (ih _).cons₂ p
    · exact (ih _).cons p

theorem spec_written_unwritten_perm :
    ∀ (l : List Packet) (e : Int), (spec_written e l ++ spec_unwritten e l).Perm l := by
  intro l
  induction l with
  | nil => intro e; simp [spec_written, spec_unwritten]
  | cons p l ih =>
    intro e
    simp only [spec_written, spec_unwritten]
    split
    · exact (ih _).cons p
    · exact List.perm_middle.trans ((ih _).cons p)

/-- A pass that starts below every `seq_no` of a list writes nothing. -/
theorem spec_written_of_lt :
    ∀ (l : List Packet) (e : Int), (∀ q ∈ l, e < (q.seq_no : Int)) → spec_written e l = [] := by
  intro l
  induction l with
  | nil => intro e _; simp [spec_written]
  | cons p l ih =>
    intro e h
    have hp := h p (List.mem_cons_self p l)
    simp only [spec_written]
    rw [if_neg (by omega)]
    exact ih e (fun q hq => h q (List.mem_cons_of_mem p hq))

/-- On a sorted list, no packet that the pass leaves unwritten starts at the final offset. -/
theorem spec_unwritten_fixpoint :
    ∀ (l : List Packet) (e : Int), SortedBySeq l →
      ∀ p ∈ spec_unwritten e l,
        (p.seq_no : Int) ≠ e + total_payload_size (spec_written e l) := by
  intro l
  induction l with
  | nil => intro e _ p hp; simp [spec_unwritten] at hp
  | cons a l ih =>
    intro e hs p hp
    have hs' : SortedBySeq l := (List.pairwise_cons.mp hs).2
    have ha : ∀ q ∈ l, a.seq_no ≤ q.seq_no := (List.pairwise_cons.mp hs).1
    simp only [spec_unwritten, spec_written] at hp ⊢
    by_cases hq : (a.seq_no : Int) = e
    · rw [if_pos hq] at hp ⊢
      have := ih (e + (a.payload_size : Int)) hs' p hp
      simp only [total_payload_size]
      omega
    · rw [if_neg hq] at hp ⊢
      rcases List.mem_cons.mp hp with rfl | hp'
      · rcases lt_or_gt_of_ne hq with hlt | hgt
        · have := total_payload_size_nonneg (spec_written e l)
          omega
        · have hnil : spec_written e l = [] :=
            spec_written_of_lt l e (fun q hq' => by have := ha q hq'; omega)
          rw [hnil]
          simp only [total_payload_size]
          omega
      · exact ih e hs' p hp'

/-- The first loop of `buffer_flush` from index `i` on, as a pass over the list of the
buffered packets from `i` on, when the offset does not leave the range of `int`. -/
theorem flush_loop_run (buffer : List Packet) (buf_filled : Nat)
    (hlen : buf_filled ≤ buffer.length) :
    ∀ (fuel i : Nat) (out : List Byte) (e : Int), i + fuel = buf_filled → 0 ≤ e →
      e + total_payload_size (spec_written e ((buffer.take buf_filled).drop i)) ≤ INT_MAX →
      (flush_loop buffer buf_filled fuel i out e).2 =
        (out ++ written_bytes (spec_written e ((buffer.take buf_filled).drop i)),
         e + total_payload_size (spec_written e ((buffer.take buf_filled).drop i))) := by
  intro fuel
  induction fuel with
  | zero =>
    intro i out e hi h0 hmax
    have hnil : (buffer.take buf_filled).drop i = [] := by
      apply List.drop_eq_nil_of_le
      rw [List.length_take]
      omega
    simp [flush_loop, hnil, spec_written, total_payload_size, written_bytes]
  | succ n ih =>
    intro i out e hi h0 hmax
    have hi' : i < buf_filled := by omega
    have hib : i < buffer.length := by omega
    have hit : i < (buffer.take buf_filled).length := by rw [List.length_take]; omega
    have h1 : buffer.getD i default = (buffer.take buf_filled)[i] := by
      rw [List.getD_eq_getElem?_getD, List.getElem?_eq_getElem hib, List.getElem_take]
      rfl
    have hd : (buffer.take buf_filled).drop i
        = buffer.getD i default :: (buffer.take buf_filled).drop (i + 1) := by
      rw [h1]
      exact List.drop_eq_getElem_cons hit
    have ih' := ih (i + 1)
    rw [hd] at hmax ⊢
    simp only [flush_loop, if_pos hi']
    generalize buffer.getD i default = p at hmax ⊢
    generalize (buffer.take buf_filled).drop (i + 1) = l at hmax ih' ⊢
    simp only [INT_MAX] at hmax ih'
    by_cases hq : (p.seq_no : Int) = e
    · simp only [spec_written, if_pos hq, total_payload_size, written_bytes] at hmax ⊢
      have hnn := total_payload_size_nonneg (spec_written (e + (p.payload_size : Int)) l)
      have hc : p.seq_no = toU32 e := by
        rw [toU32_of_range h0 (by omega)]
        omega
      have ht : toInt32 (e + (p.payload_size : Int)) = e + (p.payload_size : Int) :=
        toInt32_of_range (by omega) (by omega)
      rw [if_pos hc, ht,
        ih' (out ++ p.payload.take p.payload_size) (e + (p.payload_size : Int)) (by omega)
          (by omega) (by omega)]
      rw [List.append_assoc, add_assoc]
    · simp only [spec_written, if_neg hq] at hmax ⊢
      have hnn := total_payload_size_nonneg (spec_written e l)
      have hc : ¬ p.seq_no = toU32 e := by
        rw [toU32_of_range h0 (by omega)]
        omega
      rw [if_neg hc, ih' out e (by omega) h0 hmax]

/-- C20, the claim as stated fails: the buffer holds one packet (sorted) with `seq_no` 2147483600
and 100 bytes, and the expected offset is 2147483600. The packet is written, and the
returned offset is -2147483596, not the offset plus the 100 bytes written. -/
theorem buffer_flush_offset_wraps :
    SortedBySeq ([high_packet].take 1) ∧
    high_packet.seq_no = toU32 2147483600 ∧
    (buffer_flush [] [high_packet] 1 2147483600).expected_seq = -2147483596 ∧
    (buffer_flush [] [high_packet] 1 2147483600).expected_seq
      ≠ 2147483600 + (high_packet.payload_size : Int) := by
  decide

/-- C20 (amended). Let the first `buf_filled` entries of the buffer be sorted by `seq_no`,
let the expected offset `e` be non-negative, and let `e` plus the sizes of the packets of the
contiguous run from `e` not exceed `INT_MAX`. Then a call of `buffer_flush` returns `e` plus the
sum of the payload sizes of the packets of that run, appends their payloads to the output in
buffer order, and no packet outside the run has a `seq_no` equal to the returned offset; the
run and the packets outside it make up the entries in use. -/
theorem buffer_flush_writes_contiguous_run (output : List Byte) (buffer : List Packet)
    (buf_filled : Nat) (e : Int) (hlen : buf_filled ≤ buffer.length)
    (hsorted : SortedBySeq (buffer.take buf_filled)) (h0 : 0 ≤ e)
    (hmax : e + total_payload_size (spec_written e (buffer.take buf_filled)) ≤ INT_MAX) :
    (buffer_flush output buffer buf_filled e).expected_seq
      = e + total_payload_size (spec_written e (buffer.take buf_filled)) ∧
    (buffer_flush output buffer buf_filled e).output
      = output ++ written_bytes (spec_written e (buffer.take buf_filled)) ∧
    (∀ p ∈ spec_unwritten e (buffer.take buf_filled),
      (p.seq_no : Int) ≠ (buffer_flush output buffer buf_filled e).expected_seq) ∧
    (spec_written e (buffer.take buf_filled)).Sublist (buffer.take buf_filled) ∧
    (spec_written e (buffer.take buf_filled)
      ++ spec_unwritten e (buffer.take buf_filled)).Perm (buffer.take buf_filled) := by
  have h := flush_loop_run buffer buf_filled hlen buf_filled 0 output e (by omega) h0
    (by simpa using hmax)
  rw [List.drop_zero] at h
  have he : (buffer_flush output buffer buf_filled e).expected_seq
      = e + total_payload_size (spec_written e (buffer.take buf_filled)) := by
    show (flush_loop buffer buf_filled buf_filled 0 output e).2.2 = _
    rw [h]
  have ho : (buffer_flush output buffer buf_filled e).output
      = output ++ written_bytes (spec_written e (buffer.take buf_filled)) := by
    show (flush_loop buffer buf_filled buf_filled 0 output e).2.1 = _
    rw [h]
  refine ⟨he, ho, ?_, spec_written_sublist _ e, spec_written_unwritten_perm _ e⟩
  intro p hp
  rw [he]
  exact spec_unwritten_fixpoint _ e hsorted p hp

/-- C20, an instance: with `gap_buffer` and the expected offset 3, the
packets at offsets 3 and 6 are written, the returned offset is 9, and neither the stale
packet at offset 0 nor the packet at offset 12 starts at 9. -/
theorem buffer_flush_writes_contiguous_run_witness :
    (4 ≤ gap_buffer.length ∧ SortedBySeq (gap_buffer.take 4) ∧ (0 : Int) ≤ 3 ∧
      3 + total_payload_size (spec_written 3 (gap_buffer.take 4)) ≤ INT_MAX) ∧
    spec_written 3 (gap_buffer.take 4) = [small_packet 3 2, small_packet 6 3] ∧
    spec_unwritten 3 (gap_buffer.take 4) = [small_packet 0 1, small_packet 12 4] ∧
    (buffer_flush [] gap_buffer 4 3).expected_seq
      = 3 + total_payload_size (spec_written 3 (gap_buffer.take 4)) ∧
    (buffer_flush [] gap_buffer 4 3).output
      = [] ++ written_bytes (spec_written 3 (gap_buffer.take 4)) ∧
    (∀ p ∈ spec_unwritten 3 (gap_buffer.take 4),
      (p.seq_no : Int) ≠ (buffer_flush [] gap_buffer 4 3).expected_seq) ∧
    (spec_written 3 (gap_buffer.take 4)).Sublist (gap_buffer.take 4) ∧
    (spec_written 3 (gap_buffer.take 4)
      ++ spec_unwritten 3 (gap_buffer.take 4)).Perm (gap_buffer.take 4) :=
  ⟨by decide, by decide, by decide,
    buffer_flush_writes_contiguous_run [] gap_buffer 4 3 (by decide) (by decide) (by decide)
      (by decide)⟩

theorem wrap_file_length : wrap_file.length = 2147484200 := List.length_replicate _ _

theorem wrap_chunk_fields (k : Nat) (hk : PACKET_SIZE * (k + 1) ≤ 2147484200) :
    (wrap_chunk k).seq_no = PACKET_SIZE * k ∧ (wrap_chunk k).is_last = 0 ∧
    Genuine wrap_file (wrap_chunk k) := by
  simp only [PACKET_SIZE] at hk
  have hmod : PACKET_SIZE * k % 4294967296 = PACKET_SIZE * k :=
    Nat.mod_eq_of_lt (by simp only [PACKET_SIZE]; omega)
  have hlen : ((wrap_file.drop (PACKET_SIZE * k)).take PACKET_SIZE).length = PACKET_SIZE := by
    rw [List.length_take, List.length_drop, wrap_file_length]
    simp only [PACKET_SIZE]
    omega
  refine ⟨?_, ?_, ⟨k, 0, ?_, rfl⟩⟩
  · show PACKET_SIZE * k % 4294967296 = PACKET_SIZE * k
    exact hmod
  · show (if ((wrap_file.drop (PACKET_SIZE * k)).take PACKET_SIZE).length < PACKET_SIZE
      then 1 else 0) = 0
    rw [hlen, if_neg (lt_irrefl _)]
  · rw [wrap_file_length, Nat.le_div_iff_mul_le (by decide)]
    simp only [PACKET_SIZE]
    omega

/-- A packet ahead of order that is not marked is_last and finds room in the buffer leaves
`expected_seq`, `last_seq` and `is_last_ackd` as they are and takes one more slot. -/
theorem handle_packet_ahead_fields (fd : Nat) (st : Receiver) (pkt : Packet) (rand : Nat)
    (hacc : accept_or_drop rand ≠ 1) (hseq : toU32 st.expected_seq < pkt.seq_no)
    (hroom : st.buf_filled < TMP_BUFFER_SIZE) (hnl : pkt.is_last = 0) :
    (handle_packet fd st pkt rand).expected_seq = st.expected_seq ∧
    (handle_packet fd st pkt rand).buf_filled = st.buf_filled + 1 ∧
    (handle_packet fd st pkt rand).is_last_ackd = st.is_last_ackd ∧
    (handle_packet fd st pkt rand).last_seq = st.last_seq := by
  rw [handle_packet_ahead fd st pkt rand hacc hseq hroom]
  refine ⟨rfl, rfl, ?_, rfl⟩
  show (if pkt.is_last ≠ 0 then 1 else st.is_last_ackd) = st.is_last_ackd
  rw [if_neg (by omega)]

theorem in_order_run_succ (F : List Byte) (n : Nat) :
    in_order_run F (n + 1) = in_order_run F n ++
      [(some ⟨(Client.create_packet F (PACKET_SIZE * n) 0).1, 50⟩, none)] := by
  simp [in_order_run, List.range_succ]

theorem main_loop_socket0 (st : Receiver) (a : Arrival)
    (rest : List (Option Arrival × Option Arrival)) (h : st.is_last_ackd = 0) :
    main_loop st ((some a, none) :: rest) = main_loop (handle_packet 0 st a.pkt a.rand) rest := by
  simp only [main_loop, h, if_true, iteration]

/-- The state that `wrapped_run` leads to: the loop is running, `expected_seq` has wrapped
around to -2147483596, `last_seq` is untouched and the buffer is full. -/
theorem wrapped_run_state :
    (main_loop Receiver.init wrapped_run).is_last_ackd = 0 ∧
    (main_loop Receiver.init wrapped_run).buf_filled = TMP_BUFFER_SIZE ∧
    (main_loop Receiver.init wrapped_run).expected_seq = -2147483596 ∧
    (main_loop Receiver.init wrapped_run).last_seq = INT_MAX := by
  have hlen := wrap_file_length
  have h1 : PACKET_SIZE * 21474836 ≤ wrap_file.length := by rw [hlen]; decide
  have h2 : PACKET_SIZE * (21474836 + 1) ≤ wrap_file.length := by rw [hlen]; decide
  obtain ⟨acks, hrun⟩ := main_loop_in_order_run wrap_file 21474836 h1 (by decide)
  obtain ⟨acks1, hstep⟩ := in_order_step wrap_file 21474836 acks h2 (by decide)
  have hsplit : in_order_run wrap_file 21474837 = in_order_run wrap_file 21474836 ++
      [(some ⟨(Client.create_packet wrap_file (PACKET_SIZE * 21474836) 0).1, 50⟩, none)] :=
    in_order_run_succ wrap_file 21474836
  have hacc : accept_or_drop 50 ≠ 1 := by decide
  have hw : toInt32 ((PACKET_SIZE * (21474836 + 1) : Nat) : Int) = -2147483596 := by decide
  rw [hw] at hstep
  obtain ⟨q1, n1, -⟩ := wrap_chunk_fields 21474838 (by decide)
  obtain ⟨q2, n2, -⟩ := wrap_chunk_fields 21474839 (by decide)
  obtain ⟨q3, n3, -⟩ := wrap_chunk_fields 21474840 (by decide)
  obtain ⟨q4, n4, -⟩ := wrap_chunk_fields 21474841 (by decide)
  have hkey : ∃ s0, main_loop Receiver.init (in_order_run wrap_file 21474837) = s0 ∧
      s0.expected_seq = -2147483596 ∧ s0.buf_filled = 0 ∧ s0.is_last_ackd = 0 ∧
      s0.last_seq = INT_MAX := by
    rw [hsplit, main_loop_append, hrun]
    simp only [main_loop, iteration, if_true, hstep]
    exact ⟨_, rfl, rfl, rfl, rfl, rfl⟩
  obtain ⟨s0, hs0, e0, b0, l0, m0⟩ := hkey
  unfold wrapped_run
  rw [main_loop_append, hs0]
  clear hs0 hstep hrun hsplit
  have hu : toU32 (-2147483596) = 2147483700 := by decide
  have c1 : (2147483700 : Nat) < PACKET_SIZE * 21474838 := by decide
  have c2 : (2147483700 : Nat) < PACKET_SIZE * 21474839 := by decide
  have c3 : (2147483700 : Nat) < PACKET_SIZE * 21474840 := by decide
  have c4 : (2147483700 : Nat) < PACKET_SIZE * 21474841 := by decide
  obtain ⟨e1, b1, l1, m1⟩ := handle_packet_ahead_fields 0 s0 (wrap_chunk 21474838) 50 hacc
    (by rw [e0, hu, q1]; exact c1) (by rw [b0]; decide) n1
  rw [e0] at e1; rw [b0] at b1; rw [l0] at l1; rw [m0] at m1
  obtain ⟨e2, b2, l2, m2⟩ := handle_packet_ahead_fields 0 _ (wrap_chunk 21474839) 50 hacc
    (by rw [e1, hu, q2]; exact c2) (by rw [b1]; decide) n2
  rw [e1] at e2; rw [b1] at b2; rw [l1] at l2; rw [m1] at m2
  obtain ⟨e3, b3, l3, m3⟩ := handle_packet_ahead_fields 0 _ (wrap_chunk 21474840) 50 hacc
    (by rw [e2, hu, q3]; exact c3) (by rw [b2]; decide) n3
  rw [e2] at e3; rw [b2] at b3; rw [l2] at l3; rw [m2] at m3
  obtain ⟨e4, b4, l4, m4⟩ := handle_packet_ahead_fields 0 _ (wrap_chunk 21474841) 50 hacc
    (by rw [e3, hu, q4]; exact c4) (by rw [b3]; decide) n4
  rw [e3] at e4; rw [b3] at b4; rw [l3] at l4; rw [m3] at m4
  rw [main_loop_socket0 s0 ⟨wrap_chunk 21474838, 50⟩ _ l0,
    main_loop_socket0 _ ⟨wrap_chunk 21474839, 50⟩ _ l1,
    main_loop_socket0 _ ⟨wrap_chunk 21474840, 50⟩ _ l2,
    main_loop_socket0 _ ⟨wrap_chunk 21474841, 50⟩ _ l3]
  exact ⟨l4, b4, e4, m4⟩

theorem wrapped_run_genuine : GenuineRun wrap_file wrapped_run := by
  have hlen := wrap_file_length
  have h1 : PACKET_SIZE * 21474837 ≤ wrap_file.length := by rw [hlen]; decide
  have hin := in_order_run_genuine wrap_file 21474837 h1
  intro ev hev
  rcases List.mem_append.mp hev with h | h
  · exact hin ev h
  · simp only [List.mem_cons, List.mem_singleton, List.not_mem_nil, or_false] at h
    rcases h with rfl | rfl | rfl | rfl
    · refine ⟨fun a ha => ?_, fun a ha => by simp at ha⟩
      simp only [Option.some.injEq] at ha
      subst ha
      exact (wrap_chunk_fields 21474838 (by decide)).2.2
    · refine ⟨fun a ha => ?_, fun a ha => by simp at ha⟩
      simp only [Option.some.injEq] at ha
      subst ha
      exact (wrap_chunk_fields 21474839 (by decide)).2.2
    · refine ⟨fun a ha => ?_, fun a ha => by simp at ha⟩
      simp only [Option.some.injEq] at ha
      subst ha
      exact (wrap_chunk_fields 21474840 (by decide)).2.2
    · refine ⟨fun a ha => ?_, fun a ha => by simp at ha⟩
      simp only [Option.some.injEq] at ha
      subst ha
      exact (wrap_chunk_fields 21474841 (by decide)).2.2

/-- An in-order packet that is not marked is_last, taken while expected_seq is below
last_seq, is acknowledged with a plain acknowledgment. -/
theorem handle_packet_in_order_acks (fd : Nat) (st : Receiver) (pkt : Packet) (rand : Nat)
    (hacc : accept_or_drop rand ≠ 1) (hseq : pkt.seq_no = toU32 st.expected_seq)
    (hnl : pkt.is_last = 0) (hlt : st.expected_seq < st.last_seq) :
    (handle_packet fd st pkt rand).acks =
      st.acks ++ [(fd, create_packet pkt.seq_no pkt.channel_no)] := by
  rw [handle_packet_in_order fd st pkt rand hacc hseq]
  have h1 : ¬ pkt.is_last ≠ 0 := by omega
  have h2 : ¬ st.expected_seq ≥ st.last_seq := by omega
  simp only [h1, if_false, h2]

/-- C10, the claim as stated fails once expected_seq has wrapped around: after
`wrapped_run`, a genuine run for a file of 2147484200 bytes, the loop is running with
a full buffer and expected_seq = -2147483596. The awaited chunk, with seq_no
2147483700, has a seq_no greater than expected_seq, yet it is in order as the receiver
compares them (expected_seq converted to unsigned int) and is acknowledged. -/
theorem full_buffer_packet_accepted_after_wrap :
    GenuineRun wrap_file wrapped_run ∧ Genuine wrap_file (wrap_chunk 21474837) ∧
    (main_loop Receiver.init wrapped_run).is_last_ackd = 0 ∧
    (main_loop Receiver.init wrapped_run).buf_filled = TMP_BUFFER_SIZE ∧
    (main_loop Receiver.init wrapped_run).expected_seq = -2147483596 ∧
    (wrap_chunk 21474837).seq_no = 2147483700 ∧
    (main_loop Receiver.init wrapped_run).expected_seq < ((wrap_chunk 21474837).seq_no : Int) ∧
    (handle_packet 0 (main_loop Receiver.init wrapped_run) (wrap_chunk 21474837) 50).acks =
      (main_loop Receiver.init wrapped_run).acks ++ [(0, create_packet 2147483700 0)] ∧
    handle_packet 0 (main_loop Receiver.init wrapped_run) (wrap_chunk 21474837) 50 ≠
      main_loop Receiver.init wrapped_run := by
  obtain ⟨l, b, e, m⟩ := wrapped_run_state
  obtain ⟨q, n, g⟩ := wrap_chunk_fields 21474837 (by decide)
  have hq : (wrap_chunk 21474837).seq_no = 2147483700 := q
  have hc : (wrap_chunk 21474837).channel_no = 0 := rfl
  have hu : toU32 (-2147483596) = 2147483700 := by decide
  have hlt : (-2147483596 : Int) < INT_MAX := by decide
  have hgt : (-2147483596 : Int) < ((2147483700 : Nat) : Int) := by decide
  have hgen := wrapped_run_genuine
  generalize main_loop Receiver.init wrapped_run = st at l b e m ⊢
  have hacks := handle_packet_in_order_acks 0 st (wrap_chunk 21474837) 50 (by decide)
    (by rw [e, hu, hq]) n (by rw [e, m]; exact hlt)
  rw [hq, hc] at hacks
  have hne : handle_packet 0 st (wrap_chunk 21474837) 50 ≠ st := by
    intro heq
    have h2 := hacks.symm.trans (congrArg Receiver.acks heq)
    exact List.cons_ne_nil _ _ (List.append_right_eq_self.mp h2)
  exact ⟨hgen, g, l, b, e, hq, by rw [e, hq]; exact hgt, hacks, hne⟩

/-- C10 (amended). With a full buffer (buf_filled = TMP_BUFFER_SIZE) and a non-negative
expected_seq (as in every state reached for an input of fewer than 2^31 bytes), a
packet whose seq_no is greater than expected_seq leaves the whole receiver state as
it was, whatever its is_last flag and whether or not the loss simulator drops it:
nothing is written, no acknowledgment is sent, and buffer, buf_filled, expected_seq,
last_seq and is_last_ackd keep their values. -/
theorem full_buffer_packet_is_dropped (fd : Nat) (st : Receiver) (pkt : Packet) (rand : Nat)
    (hfull : st.buf_filled = TMP_BUFFER_SIZE) (h0 : 0 ≤ st.expected_seq)
    (hgt : st.expected_seq < (pkt.seq_no : Int)) :
    handle_packet fd st pkt rand = st := by
  have hu : toU32 st.expected_seq < pkt.seq_no := by
    unfold toU32
    omega
  unfold handle_packet
  have h1 : ¬ pkt.seq_no < toU32 st.expected_seq := by omega
  have h2 : ¬ pkt.seq_no = toU32 st.expected_seq := by omega
  have h3 : ¬ st.buf_filled < TMP_BUFFER_SIZE := by omega
  simp only [h1, h2, h3, if_false, ite_self]

/-- C10, an instance: chunk 5 of file600 arrives while chunks 1 to 4 fill the buffer
and chunk 0 is still awaited. -/
theorem full_buffer_packet_is_dropped_witness :
    full_buffer_state.buf_filled = TMP_BUFFER_SIZE ∧
    0 ≤ full_buffer_state.expected_seq ∧
    full_buffer_state.expected_seq < ((chunk600 5).seq_no : Int) ∧
    handle_packet 1 full_buffer_state (chunk600 5) 50 = full_buffer_state :=
  ⟨by decide, by decide, by decide,
    full_buffer_packet_is_dropped 1 full_buffer_state (chunk600 5) 50 (by decide) (by decide)
      (by decide)⟩

end Server

/-! ### The sender -/

namespace Client

theorem huge_file_length : huge_file.length = 4294967396 := List.length_replicate _ _

/-- C7, the claim as stated fails for a read cursor of 2^32 or more: seq_no is an
unsigned int, so at cursor 4294967296 of huge_file the packet gets seq_no 0. -/
theorem create_packet_seq_no_wraps :
    4294967296 ≤ huge_file.length ∧
    (create_packet huge_file 4294967296 0).1.seq_no = 0 ∧
    (create_packet huge_file 4294967296 0).1.seq_no ≠ 4294967296 := by
  refine ⟨?_, by decide, by decide⟩
  rw [huge_file_length]; decide

/-- C7 (amended). For every file F, every read cursor c ≤ |F| with c < 2^32 and
channel 0 or 1, create_packet returns a DATA packet with seq_no = c, payload
F[c .. min(c + PACKET_SIZE, |F|)), payload_size the length of that payload,
channel_no the requested channel, and is_last = 1 if and only if payload_size <
PACKET_SIZE (is_last = 0 otherwise); the cursor advances by payload_size. -/
theorem create_packet_spec (F : List Byte) (c chan : Nat) (hc : c ≤ F.length)
    (hc32 : c < 4294967296) (hchan : chan < 2) :
    (create_packet F c chan).1.data_or_ack = 0 ∧
    (create_packet F c chan).1.seq_no = c ∧
    (create_packet F c chan).1.payload = (F.take (min (c + PACKET_SIZE) F.length)).drop c ∧
    (create_packet F c chan).1.payload_size = (create_packet F c chan).1.payload.length ∧
    (create_packet F c chan).1.payload_size = min (c + PACKET_SIZE) F.length - c ∧
    (create_packet F c chan).1.channel_no = chan ∧
    ((create_packet F c chan).1.is_last = 1 ↔
      (create_packet F c chan).1.payload_size < PACKET_SIZE) ∧
    ((create_packet F c chan).1.is_last = 0 ↔
      ¬ (create_packet F c chan).1.payload_size < PACKET_SIZE) ∧
    (create_packet F c chan).2 = c + (create_packet F c chan).1.payload_size := by
  have hpay : (F.drop c).take PACKET_SIZE = (F.take (min (c + PACKET_SIZE) F.length)).drop c := by
    rcases Nat.le_total (c + PACKET_SIZE) F.length with h | h
    · rw [Nat.min_eq_left h, List.drop_take, Nat.add_sub_cancel_left]
    · rw [Nat.min_eq_right h, List.take_length, List.take_of_length_le]
      rw [List.length_drop]; omega
  simp only [create_packet]
  refine ⟨trivial, Nat.mod_eq_of_lt hc32, hpay, trivial, ?_, Nat.mod_eq_of_lt hchan, ?_, ?_, trivial⟩
  · rw [List.length_take, List.length_drop]; omega
  · split <;> simp_all
  · split <;> simp_all


theorem create_packet_is_last (F : List Byte) (k chan : Nat) (hk : k ≤ F.length / PACKET_SIZE) :
    ((create_packet F (PACKET_SIZE * k) chan).1.is_last = 1 ↔ k = F.length / PACKET_SIZE) ∧
    (create_packet F (PACKET_SIZE * k) chan).2 =
      PACKET_SIZE * k + min PACKET_SIZE (F.length - PACKET_SIZE * k) := by
  simp only [create_packet, List.length_take, List.length_drop, PACKET_SIZE] at *
  refine ⟨?_, trivial⟩
  split
  · simp only [true_iff]; omega
  · simp only [zero_ne_one, false_iff]; omega

theorem read_packets_eq (F : List Byte) (chan : Nat → Nat) :
    ∀ (fuel k : Nat), k ≤ F.length / PACKET_SIZE → fuel = F.length / PACKET_SIZE + 1 - k →
      read_packets F chan fuel k (PACKET_SIZE * k) =
        (List.range' k fuel).map (fun j => (create_packet F (PACKET_SIZE * j) (chan j)).1) := by
  intro fuel
  induction fuel with
  | zero => intro k hk hf; omega
  | succ n ih =>
    intro k hk hf
    obtain ⟨hl, hpos⟩ := create_packet_is_last F k (chan k) hk
    simp only [read_packets, List.range'_succ, List.map_cons]
    split
    · rename_i hlast
      have hkN := hl.1 hlast
      have hn : n = 0 := by omega
      subst hn
      simp
    · rename_i hlast
      have hkN : k ≠ F.length / PACKET_SIZE := fun h => hlast (hl.2 h)
      have hnext : (create_packet F (PACKET_SIZE * k) (chan k)).2 = PACKET_SIZE * (k + 1) := by
        rw [hpos]
        simp only [PACKET_SIZE] at *
        omega
      rw [hnext, ih (k + 1) (by omega) (by omega)]

theorem all_packets_eq (F : List Byte) (chan : Nat → Nat) :
    all_packets F chan = (List.range (F.length / PACKET_SIZE + 1)).map
      (fun j => (create_packet F (PACKET_SIZE * j) (chan j)).1) := by
  unfold all_packets
  have := read_packets_eq F chan (F.length / PACKET_SIZE + 1) 0 (Nat.zero_le _) rfl
  rw [Nat.mul_zero] at this
  rw [this, List.range_eq_range']

theorem payloads_flatten (F : List Byte) (chan : Nat → Nat) :
    ∀ n : Nat, ((List.range n).map
      (fun j => (create_packet F (PACKET_SIZE * j) (chan j)).1.payload)).flatten =
      F.take (PACKET_SIZE * n) := by
  intro n
  induction n with
  | zero => simp
  | succ n ih =>
    rw [List.range_succ, List.map_append, List.flatten_append, ih, Nat.mul_succ, List.take_add]
    simp [create_packet]


/-- C8, the claim as stated fails for a file of 2^32 bytes or more: the packet
number 42949673 of huge_file starts at offset 4294967300 and gets seq_no 4. -/
theorem all_packets_seq_no_wraps :
    ((all_packets huge_file (fun k => k % 2))[42949673]?).map Packet.seq_no = some 4 ∧
    4 ≠ PACKET_SIZE * 42949673 := by
  refine ⟨?_, by decide⟩
  have hlt : 42949673 < huge_file.length / PACKET_SIZE + 1 := by
    rw [huge_file_length]; decide
  rw [all_packets_eq, List.getElem?_map, List.getElem?_range hlt]
  decide

/-- C8 (amended). For every file F of N bytes whose last chunk starts below 2^32
(100 * (N / 100) < 2^32), calling create_packet from offset 0 until a packet is
marked is_last gives N / 100 + 1 packets; the k-th one is
the packet created at offset 100 * k, has seq_no = 100 * k, is marked is_last if and
only if it is the final one (k = N / 100), and the payloads before it make up
exactly the first seq_no bytes of F; all payloads concatenated in this order equal
F. -/
theorem all_packets_cover_file (F : List Byte) (chan : Nat → Nat)
    (hF : PACKET_SIZE * (F.length / PACKET_SIZE) < 4294967296) :
    (all_packets F chan).length = F.length / PACKET_SIZE + 1 ∧
    (∀ k p, (all_packets F chan)[k]? = some p →
      p = (create_packet F (PACKET_SIZE * k) (chan k)).1 ∧
      p.seq_no = PACKET_SIZE * k ∧
      (p.is_last = 1 ↔ k = F.length / PACKET_SIZE) ∧
      (p.is_last = 0 ↔ k ≠ F.length / PACKET_SIZE) ∧
      p.payload_size = p.payload.length ∧
      (((all_packets F chan).take k).map Packet.payload).flatten = F.take p.seq_no) ∧
    ((all_packets F chan).map Packet.payload).flatten = F := by
  rw [all_packets_eq]
  refine ⟨by simp, ?_, ?_⟩
  · intro k p hp
    rw [List.getElem?_map] at hp
    have hk : k < F.length / PACKET_SIZE + 1 := by
      by_contra hcon
      rw [List.getElem?_eq_none (by simpa using hcon)] at hp
      simp at hp
    rw [List.getElem?_range hk] at hp
    simp only [Option.map_some', Option.some.injEq] at hp
    subst hp
    have hk' : k ≤ F.length / PACKET_SIZE := by omega
    have hmul : PACKET_SIZE * k ≤ PACKET_SIZE * (F.length / PACKET_SIZE) :=
      Nat.mul_le_mul_left PACKET_SIZE hk'
    obtain ⟨hl, -⟩ := create_packet_is_last F k (chan k) hk'
    have hseq : (create_packet F (PACKET_SIZE * k) (chan k)).1.seq_no = PACKET_SIZE * k :=
      Nat.mod_eq_of_lt (by omega)
    refine ⟨rfl, hseq, hl, ?_, rfl, ?_⟩
    · have h01 : (create_packet F (PACKET_SIZE * k) (chan k)).1.is_last = 0 ∨
          (create_packet F (PACKET_SIZE * k) (chan k)).1.is_last = 1 := by
        simp only [create_packet]
        split <;> simp
      constructor
      · intro h0 hk1
        have := hl.2 hk1
        omega
      · intro hne
        rcases h01 with h | h
        · exact h
        · exact absurd (hl.1 h) hne
    · rw [hseq, ← List.map_take, List.take_range, Nat.min_eq_left (Nat.le_of_lt hk),
        List.map_map]
      exact payloads_flatten F chan k
  · rw [List.map_map]
    have := payloads_flatten F chan (F.length / PACKET_SIZE + 1)
    rw [List.take_of_length_le] at this
    · exact this
    · have := Nat.lt_mul_div_succ F.length (show 0 < PACKET_SIZE by decide)
      simp only [PACKET_SIZE] at *
      omega

theorem file250_length : file250.length = 250 := List.length_replicate _ _

set_option maxRecDepth 100000 in
/-- C8, an instance: a file of 250 bytes gives packets with seq_no 0, 100 and 200,
the last of 50 bytes and the only one marked is_last. -/
theorem all_packets_cover_file_witness :
    PACKET_SIZE * (file250.length / PACKET_SIZE) < 4294967296 ∧
    (all_packets file250 (fun k => k % 2)).map
      (fun p => (p.seq_no, p.payload_size, p.is_last, p.channel_no)) =
      [(0, 100, 0, 0), (100, 100, 0, 1), (200, 50, 1, 0)] ∧
    ((all_packets file250 (fun k => k % 2)).map Packet.payload).flatten = file250 :=
  ⟨by rw [file250_length]; decide, by decide,
    (all_packets_cover_file file250 (fun k => k % 2) (by rw [file250_length]; decide)).2.2⟩

/-- C7, an instance: the last chunk of a file of 250 bytes, read at cursor 200. -/
theorem create_packet_spec_witness :
    200 ≤ file250.length ∧ 200 < 4294967296 ∧ 0 < 2 ∧
    (create_packet file250 200 0).1.seq_no = 200 ∧
    (create_packet file250 200 0).1.payload_size = 50 ∧
    (create_packet file250 200 0).1.is_last = 1 ∧
    (create_packet file250 200 0).2 = 200 + (create_packet file250 200 0).1.payload_size :=
  ⟨by rw [file250_length]; decide, by decide, by decide,
    (create_packet_spec file250 200 0 (by rw [file250_length]; decide) (by decide)
      (by decide)).2.1,
    by decide, by decide,
    (create_packet_spec file250 200 0 (by rw [file250_length]; decide) (by decide)
      (by decide)).2.2.2.2.2.2.2.2⟩


/-- C5, the claim as stated fails for a file shorter than PACKET_SIZE: after the
initial send of the only packet (marked is_last) both channels are in state 2 and
the loop condition is false, so the success notice follows, and no packet has been
received. -/
theorem sender_done_before_any_ack :
    (init file50).sent = [(0, (create_packet file50 0 0).1)] ∧
    (create_packet file50 0 0).1.is_last = 1 ∧
    (init file50).state_ch0 = 2 ∧ (init file50).state_ch1 = 2 ∧
    ¬ ((init file50).state_ch0 + (init file50).state_ch1 < 4) ∧
    (init file50).received = [] ∧
    transfer_loop file50 (init file50) [⟨0, 0, Select.timeout⟩] = some (init file50) := by
  decide

theorem create_packet_short (F : List Byte) (chan : Nat) (h : F.length < PACKET_SIZE) :
    (create_packet F 0 chan).1.is_last = 1 := by
  simp only [create_packet, List.drop_zero, List.length_take]
  rw [if_pos]
  omega

/-- C5 (amended). A sender channel enters state 2 on account of an is_last packet as
soon as it has created and sent that packet, without waiting for its
acknowledgment. For a file shorter than PACKET_SIZE both channels are in state 2
right after the initial send and the loop ends at once, no packet having been
received. In the loop, when a packet arrives on a channel while neither channel is
in state 2 and the next packet read from the file is marked is_last, that packet is
sent and the channel is in state 2 at once. -/
theorem sender_done_on_sending_last (F : List Byte) :
    (F.length < PACKET_SIZE →
      (init F).sent = [(0, (create_packet F 0 0).1)] ∧
      (create_packet F 0 0).1.is_last = 1 ∧
      (init F).received = [] ∧
      (init F).state_ch0 = 2 ∧ (init F).state_ch1 = 2 ∧
      ∀ evs, transfer_loop F (init F) evs = some (init F)) ∧
    (∀ (s : Sender) (ack : Packet), s.state_ch0 ≠ 2 → s.state_ch1 ≠ 2 →
      (create_packet F s.pos 0).1.is_last = 1 →
      (on_receive0 F s ack).state_ch0 = 2 ∧
      (on_receive0 F s ack).ch0_pkt = (create_packet F s.pos 0).1 ∧
      (on_receive0 F s ack).sent = s.sent ++ [(0, (create_packet F s.pos 0).1)] ∧
      (on_receive0 F s ack).received = s.received ++ [(0, ack)]) ∧
    (∀ (s : Sender) (ack : Packet), s.state_ch0 ≠ 2 → s.state_ch1 ≠ 2 →
      (create_packet F s.pos 1).1.is_last = 1 →
      (on_receive1 F s ack).state_ch1 = 2 ∧
      (on_receive1 F s ack).ch1_pkt = (create_packet F s.pos 1).1 ∧
      (on_receive1 F s ack).sent = s.sent ++ [(1, (create_packet F s.pos 1).1)] ∧
      (on_receive1 F s ack).received = s.received ++ [(1, ack)]) := by
  refine ⟨?_, ?_, ?_⟩
  · intro hF
    have hl := create_packet_short F 0 hF
    have h0 : (init F).state_ch0 = 2 := by simp [init, hl]
    have h1 : (init F).state_ch1 = 2 := by simp [init, hl]
    refine ⟨by simp [init, hl], hl, by simp [init, hl], h0, h1, ?_⟩
    intro evs
    cases evs with
    | nil => rfl
    | cons ev rest => simp [transfer_loop, h0, h1]
  · intro s ack h0 h1 hl
    simp [on_receive0, h0, h1, hl]
  · intro s ack h0 h1 hl
    simp [on_receive1, h0, h1, hl]


/-- C5, instances: file50 (shorter than a packet), and the acknowledgment of chunk 0
of file150 arriving on channel 0 when the file has been read to its end. -/
theorem sender_done_on_sending_last_witness :
    file50.length < PACKET_SIZE ∧
    (init file50).state_ch0 = 2 ∧
    (init Server.file150).state_ch0 ≠ 2 ∧ (init Server.file150).state_ch1 ≠ 2 ∧
    (create_packet Server.file150 (init Server.file150).pos 0).1.is_last = 1 ∧
    (on_receive0 Server.file150 (init Server.file150) (Server.create_packet 0 0)).state_ch0 = 2 :=
  ⟨by decide,
    ((sender_done_on_sending_last file50).1 (by decide)).2.2.2.1,
    by decide, by decide, by decide,
    ((sender_done_on_sending_last Server.file150).2.1 (init Server.file150)
      (Server.create_packet 0 0) (by decide) (by decide) (by decide)).1⟩

theorem recompute_timers_fields (s : Sender) (t : ℚ) :
    (recompute_timers s t).ch0_pkt = s.ch0_pkt ∧
    (recompute_timers s t).ch1_pkt = s.ch1_pkt ∧
    (recompute_timers s t).pkt0_trans_count = s.pkt0_trans_count ∧
    (recompute_timers s t).pkt1_trans_count = s.pkt1_trans_count ∧
    (recompute_timers s t).sent = s.sent ∧
    (recompute_timers s t).received = s.received ∧
    (recompute_timers s t).state_ch0 = s.state_ch0 ∧
    (recompute_timers s t).state_ch1 = s.state_ch1 ∧
    (recompute_timers s t).pos = s.pos ∧
    (recompute_timers s t).closed = s.closed ∧
    (recompute_timers s t).stale_reads = s.stale_reads := by
  by_cases h0 : s.is_ch0_updated = 0 <;> by_cases h1 : s.is_ch1_updated = 0 <;>
    simp [recompute_timers, h0, h1]

theorem on_receive1_fields (F : List Byte) (s : Sender) (ack : Packet) :
    (on_receive1 F s ack).ch0_pkt = s.ch0_pkt ∧
    (on_receive1 F s ack).pkt0_trans_count = s.pkt0_trans_count ∧
    sent_on 0 (on_receive1 F s ack).sent = sent_on 0 s.sent := by
  by_cases h : s.state_ch0 ≠ 2 ∧ s.state_ch1 ≠ 2
  · by_cases hl : (create_packet F s.pos 1).1.is_last ≠ 0 <;>
      simp [on_receive1, h, hl, sent_on, List.filter_append]
  · simp [on_receive1, h]

theorem on_receive0_fields (F : List Byte) (s : Sender) (ack : Packet) :
    (on_receive0 F s ack).ch1_pkt = s.ch1_pkt ∧
    (on_receive0 F s ack).pkt1_trans_count = s.pkt1_trans_count ∧
    sent_on 1 (on_receive0 F s ack).sent = sent_on 1 s.sent := by
  by_cases h : s.state_ch0 ≠ 2 ∧ s.state_ch1 ≠ 2
  · by_cases hl : (create_packet F s.pos 0).1.is_last ≠ 0 <;>
      simp [on_receive0, h, hl, sent_on, List.filter_append]
  · simp [on_receive0, h]


theorem sent_on_append (fd : Nat) (l1 l2 : List (Nat × Packet)) :
    sent_on fd (l1 ++ l2) = sent_on fd l1 ++ sent_on fd l2 := by
  simp [sent_on, List.filter_append]

theorem on_timeout_cases (s t : Sender) (h : on_timeout s = some t) :
    (s.min_time_sock = 0 ∧ s.pkt0_trans_count < MAX_RETRIES ∧
      t.ch0_pkt = s.ch0_pkt ∧ t.pkt0_trans_count = s.pkt0_trans_count + 1 ∧
      t.sent = s.sent ++ [(0, s.ch0_pkt)] ∧
      t.ch1_pkt = s.ch1_pkt ∧ t.pkt1_trans_count = s.pkt1_trans_count) ∨
    (s.min_time_sock ≠ 0 ∧ s.pkt1_trans_count < MAX_RETRIES ∧
      t.ch1_pkt = s.ch1_pkt ∧ t.pkt1_trans_count = s.pkt1_trans_count + 1 ∧
      t.sent = s.sent ++ [(1, s.ch1_pkt)] ∧
      t.ch0_pkt = s.ch0_pkt ∧ t.pkt0_trans_count = s.pkt0_trans_count) := by
  by_cases hm : s.min_time_sock = 0
  · by_cases hc : s.pkt0_trans_count ≥ MAX_RETRIES
    · simp [on_timeout, hm, hc] at h
    · simp only [on_timeout, hm, hc, if_true, if_false, Option.some.injEq] at h
      subst h
      exact Or.inl ⟨hm, by omega, rfl, rfl, rfl, rfl, rfl⟩
  · by_cases hc : s.pkt1_trans_count ≥ MAX_RETRIES
    · simp [on_timeout, hm, hc] at h
    · simp only [on_timeout, hm, hc, if_true, if_false, Option.some.injEq] at h
      subst h
      exact Or.inr ⟨hm, by omega, rfl, rfl, rfl, rfl, rfl⟩

theorem step_timeout (F : List Byte) (s : Sender) (ev : Event) (h : ev.sel = Select.timeout) :
    step F s ev = (on_timeout (begin_pass s ev.rand)).map
      (fun s1 => recompute_timers s1 (time_taken ev.ticks)) := by
  unfold step
  rw [h]
  dsimp only
  cases on_timeout (begin_pass s ev.rand) <;> rfl

theorem step_ready (F : List Byte) (s : Sender) (ev : Event) (p0 p1 : Option Packet)
    (h : ev.sel = Select.ready p0 p1) :
    step F s ev = some (recompute_timers
      (p1.elim (p0.elim (begin_pass s ev.rand) (on_receive0 F (begin_pass s ev.rand)))
        (on_receive1 F (p0.elim (begin_pass s ev.rand) (on_receive0 F (begin_pass s ev.rand)))))
      (time_taken ev.ticks)) := by
  unfold step
  rw [h]
  cases p0 <;> cases p1 <;> rfl

theorem step_frame0 (F : List Byte) (s : Sender) (ev : Event) (t : Sender)
    (hno : ev.sel.on0 = none) (hstep : step F s ev = some t)
    (hc : s.pkt0_trans_count ≤ MAX_RETRIES) :
    t.ch0_pkt = s.ch0_pkt ∧ s.pkt0_trans_count ≤ t.pkt0_trans_count ∧
    t.pkt0_trans_count ≤ MAX_RETRIES ∧
    sent_on 0 t.sent = sent_on 0 s.sent ++
      List.replicate (t.pkt0_trans_count - s.pkt0_trans_count) s.ch0_pkt := by
  cases hsel : ev.sel with
  | timeout =>
    rw [step_timeout F s ev hsel] at hstep
    cases hto : on_timeout (begin_pass s ev.rand) with
    | none => rw [hto] at hstep; simp at hstep
    | some s1 =>
      rw [hto] at hstep
      simp only [Option.map_some', Option.some.injEq] at hstep
      subst hstep
      obtain ⟨r1, -, r3, -, r5, -⟩ := recompute_timers_fields s1
        (time_taken ev.ticks)
      rw [r1, r3, r5]
      rcases on_timeout_cases _ _ hto with ⟨-, c2, c3, c4, c5, -, -⟩ | ⟨-, -, -, -, c5, c6, c7⟩
      · simp only [begin_pass] at c2 c3 c4 c5
        rw [c3, c4, c5, sent_on_append]
        refine ⟨rfl, by omega, by omega, ?_⟩
        simp [sent_on]
      · simp only [begin_pass] at c5 c6 c7
        rw [c5, c6, c7, sent_on_append]
        refine ⟨rfl, le_refl _, hc, ?_⟩
        simp [sent_on]
  | ready p0 p1 =>
    rw [hsel] at hno
    simp only [Select.on0] at hno
    subst hno
    rw [step_ready F s ev none p1 hsel] at hstep
    simp only [Option.some.injEq] at hstep
    subst hstep
    cases p1 with
    | none =>
      obtain ⟨r1, -, r3, -, r5, -⟩ := recompute_timers_fields (begin_pass s ev.rand)
          (time_taken ev.ticks)
      simp only [Option.elim]
      rw [r1, r3, r5]
      simp only [begin_pass]
      refine ⟨trivial, le_refl _, hc, ?_⟩
      simp
    | some ack =>
      obtain ⟨r1, -, r3, -, r5, -⟩ := recompute_timers_fields
          (on_receive1 F (begin_pass s ev.rand) ack) (time_taken ev.ticks)
      obtain ⟨q1, q2, q3⟩ := on_receive1_fields F (begin_pass s ev.rand) ack
      simp only [Option.elim]
      rw [r1, r3, r5, q1, q2, q3]
      simp only [begin_pass]
      refine ⟨trivial, le_refl _, hc, ?_⟩
      simp


theorem step_frame1 (F : List Byte) (s : Sender) (ev : Event) (t : Sender)
    (hno : ev.sel.on1 = none) (hstep : step F s ev = some t)
    (hc : s.pkt1_trans_count ≤ MAX_RETRIES) :
    t.ch1_pkt = s.ch1_pkt ∧ s.pkt1_trans_count ≤ t.pkt1_trans_count ∧
    t.pkt1_trans_count ≤ MAX_RETRIES ∧
    sent_on 1 t.sent = sent_on 1 s.sent ++
      List.replicate (t.pkt1_trans_count - s.pkt1_trans_count) s.ch1_pkt := by
  cases hsel : ev.sel with
  | timeout =>
    rw [step_timeout F s ev hsel] at hstep
    cases hto : on_timeout (begin_pass s ev.rand) with
    | none => rw [hto] at hstep; simp at hstep
    | some s1 =>
      rw [hto] at hstep
      simp only [Option.map_some', Option.some.injEq] at hstep
      subst hstep
      obtain ⟨-, r2, -, r4, r5, -⟩ := recompute_timers_fields s1
        (time_taken ev.ticks)
      rw [r2, r4, r5]
      rcases on_timeout_cases _ _ hto with ⟨-, -, -, -, c5, c6, c7⟩ | ⟨-, c2, c3, c4, c5, -, -⟩
      · simp only [begin_pass] at c5 c6 c7
        rw [c5, c6, c7, sent_on_append]
        refine ⟨rfl, le_refl _, hc, ?_⟩
        simp [sent_on]
      · simp only [begin_pass] at c2 c3 c4 c5
        rw [c3, c4, c5, sent_on_append]
        refine ⟨rfl, by omega, by omega, ?_⟩
        simp [sent_on]
  | ready p0 p1 =>
    rw [hsel] at hno
    simp only [Select.on1] at hno
    subst hno
    rw [step_ready F s ev p0 none hsel] at hstep
    simp only [Option.some.injEq] at hstep
    subst hstep
    cases p0 with
    | none =>
      obtain ⟨-, r2, -, r4, r5, -⟩ := recompute_timers_fields (begin_pass s ev.rand)
          (time_taken ev.ticks)
      simp only [Option.elim]
      rw [r2, r4, r5]
      simp only [begin_pass]
      refine ⟨trivial, le_refl _, hc, ?_⟩
      simp
    | some ack =>
      obtain ⟨-, r2, -, r4, r5, -⟩ := recompute_timers_fields
          (on_receive0 F (begin_pass s ev.rand) ack) (time_taken ev.ticks)
      obtain ⟨q1, q2, q3⟩ := on_receive0_fields F (begin_pass s ev.rand) ack
      simp only [Option.elim]
      rw [r2, r4, r5, q1, q2, q3]
      simp only [begin_pass]
      refine ⟨trivial, le_refl _, hc, ?_⟩
      simp

theorem transfer_loop_frame0 (F : List Byte) :
    ∀ (evs : List Event) (s t : Sender), (∀ ev ∈ evs, ev.sel.on0 = none) →
      transfer_loop F s evs = some t → s.pkt0_trans_count ≤ MAX_RETRIES →
      t.ch0_pkt = s.ch0_pkt ∧ s.pkt0_trans_count ≤ t.pkt0_trans_count ∧
      t.pkt0_trans_count ≤ MAX_RETRIES ∧
      sent_on 0 t.sent = sent_on 0 s.sent ++
        List.replicate (t.pkt0_trans_count - s.pkt0_trans_count) s.ch0_pkt := by
  intro evs
  induction evs with
  | nil =>
    intro s t _ h hc
    simp only [transfer_loop, Option.some.injEq] at h
    subst h
    exact ⟨rfl, le_refl _, hc, by simp⟩
  | cons ev rest ih =>
    intro s t hno h hc
    simp only [transfer_loop] at h
    split at h
    · cases hst : step F s ev with
      | none => rw [hst] at h; simp at h
      | some s1 =>
        rw [hst] at h
        simp only at h
        obtain ⟨a1, a2, a3, a4⟩ := step_frame0 F s ev s1 (hno ev (List.mem_cons_self _ _)) hst hc
        obtain ⟨b1, b2, b3, b4⟩ := ih s1 t (fun e he => hno e (List.mem_cons_of_mem _ he)) h a3
        refine ⟨by rw [b1, a1], by omega, b3, ?_⟩
        rw [b4, a4, a1, List.append_assoc, List.append_replicate_replicate]
        congr 2
        omega
    · simp only [Option.some.injEq] at h
      subst h
      exact ⟨rfl, le_refl _, hc, by simp⟩

theorem transfer_loop_frame1 (F : List Byte) :
    ∀ (evs : List Event) (s t : Sender), (∀ ev ∈ evs, ev.sel.on1 = none) →
      transfer_loop F s evs = some t → s.pkt1_trans_count ≤ MAX_RETRIES →
      t.ch1_pkt = s.ch1_pkt ∧ s.pkt1_trans_count ≤ t.pkt1_trans_count ∧
      t.pkt1_trans_count ≤ MAX_RETRIES ∧
      sent_on 1 t.sent = sent_on 1 s.sent ++
        List.replicate (t.pkt1_trans_count - s.pkt1_trans_count) s.ch1_pkt := by
  intro evs
  induction evs with
  | nil =>
    intro s t _ h hc
    simp only [transfer_loop, Option.some.injEq] at h
    subst h
    exact ⟨rfl, le_refl _, hc, by simp⟩
  | cons ev rest ih =>
    intro s t hno h hc
    simp only [transfer_loop] at h
    split at h
    · cases hst : step F s ev with
      | none => rw [hst] at h; simp at h
      | some s1 =>
        rw [hst] at h
        simp only at h
        obtain ⟨a1, a2, a3, a4⟩ := step_frame1 F s ev s1 (hno ev (List.mem_cons_self _ _)) hst hc
        obtain ⟨b1, b2, b3, b4⟩ := ih s1 t (fun e he => hno e (List.mem_cons_of_mem _ he)) h a3
        refine ⟨by rw [b1, a1], by omega, b3, ?_⟩
        rw [b4, a4, a1, List.append_assoc, List.append_replicate_replicate]
        congr 2
        omega
    · simp only [Option.some.injEq] at h
      subst h
      exact ⟨rfl, le_refl _, hc, by simp⟩


theorem step_timeout0 (F : List Byte) (s : Sender) (ev : Event) (hsel : ev.sel = Select.timeout)
    (hmin : min_time_channel s.time_left_0_sec s.time_left_0_usec s.time_left_1_sec
      s.time_left_1_usec ev.rand = 0) :
    (s.pkt0_trans_count < MAX_RETRIES → ∃ t, step F s ev = some t ∧ t.ch0_pkt = s.ch0_pkt ∧
      t.pkt0_trans_count = s.pkt0_trans_count + 1 ∧ t.sent = s.sent ++ [(0, s.ch0_pkt)]) ∧
    (MAX_RETRIES ≤ s.pkt0_trans_count → step F s ev = none) := by
  rw [step_timeout F s ev hsel]
  constructor
  · intro hlt
    have hnot : ¬ s.pkt0_trans_count ≥ MAX_RETRIES := by omega
    simp only [on_timeout, begin_pass, hmin, if_true, hnot, if_false, Option.map_some']
    refine ⟨_, rfl, ?_⟩
    obtain ⟨r1, -, r3, -, r5, -⟩ := recompute_timers_fields
      { s with
        min_time_sock := 0, sent := s.sent ++ [(0, s.ch0_pkt)],
        pkt0_trans_count := s.pkt0_trans_count + 1, state_ch0 := 1,
        time_left_0_sec := RETRANSMISSION_TIMEOUT, time_left_0_usec := 0,
        is_ch0_updated := 1, is_ch1_updated := 0 }
      (time_taken ev.ticks)
    exact ⟨r1, r3, r5⟩
  · intro hge
    have hge' : s.pkt0_trans_count ≥ MAX_RETRIES := hge
    simp only [on_timeout, begin_pass, hmin, if_true, hge', Option.map_none']

theorem step_timeout1 (F : List Byte) (s : Sender) (ev : Event) (hsel : ev.sel = Select.timeout)
    (hmin : min_time_channel s.time_left_0_sec s.time_left_0_usec s.time_left_1_sec
      s.time_left_1_usec ev.rand ≠ 0) :
    (s.pkt1_trans_count < MAX_RETRIES → ∃ t, step F s ev = some t ∧ t.ch1_pkt = s.ch1_pkt ∧
      t.pkt1_trans_count = s.pkt1_trans_count + 1 ∧ t.sent = s.sent ++ [(1, s.ch1_pkt)]) ∧
    (MAX_RETRIES ≤ s.pkt1_trans_count → step F s ev = none) := by
  rw [step_timeout F s ev hsel]
  constructor
  · intro hlt
    have hnot : ¬ s.pkt1_trans_count ≥ MAX_RETRIES := by omega
    simp only [on_timeout, begin_pass, hmin, if_false, hnot, Option.map_some']
    refine ⟨_, rfl, ?_⟩
    obtain ⟨-, r2, -, r4, r5, -⟩ := recompute_timers_fields
      { s with
        min_time_sock := min_time_channel s.time_left_0_sec s.time_left_0_usec
          s.time_left_1_sec s.time_left_1_usec ev.rand,
        sent := s.sent ++ [(1, s.ch1_pkt)],
        pkt1_trans_count := s.pkt1_trans_count + 1, state_ch1 := 1,
        time_left_1_sec := RETRANSMISSION_TIMEOUT, time_left_1_usec := 0,
        is_ch0_updated := 0, is_ch1_updated := 1 }
      (time_taken ev.ticks)
    exact ⟨r2, r4, r5⟩
  · intro hge
    have hge' : s.pkt1_trans_count ≥ MAX_RETRIES := hge
    simp only [on_timeout, begin_pass, hmin, if_false, hge', if_true, Option.map_none']


/-- C6. On a timeout selected for a channel the sender retransmits the channel's
packet unchanged and increments its transmission count while the count is below
MAX_RETRIES, and exits when the count has reached MAX_RETRIES. Hence, from a state
in which a channel's count is 1 and over any passes of the loop in which nothing is
received on that channel, the packet stays the same, the packets sent on the
channel since are count - 1 copies of it, the count stays at most MAX_RETRIES, and
when a timeout of the channel makes the program exit there have been exactly
MAX_RETRIES - 1 = 9 retransmissions, that is MAX_RETRIES = 10 transmissions. -/
theorem retransmission_bound (F : List Byte) :
    (∀ (s : Sender) (ev : Event), ev.sel = Select.timeout →
      min_time_channel s.time_left_0_sec s.time_left_0_usec s.time_left_1_sec
        s.time_left_1_usec ev.rand = 0 →
      (s.pkt0_trans_count < MAX_RETRIES → ∃ t, step F s ev = some t ∧
        t.ch0_pkt = s.ch0_pkt ∧ t.pkt0_trans_count = s.pkt0_trans_count + 1 ∧
        t.sent = s.sent ++ [(0, s.ch0_pkt)]) ∧
      (MAX_RETRIES ≤ s.pkt0_trans_count → step F s ev = none)) ∧
    (∀ (s t : Sender) (evs : List Event), s.pkt0_trans_count = 1 →
      (∀ ev ∈ evs, ev.sel.on0 = none) → transfer_loop F s evs = some t →
      t.ch0_pkt = s.ch0_pkt ∧ t.pkt0_trans_count ≤ MAX_RETRIES ∧
      sent_on 0 t.sent = sent_on 0 s.sent ++ List.replicate (t.pkt0_trans_count - 1) s.ch0_pkt ∧
      ∀ ev : Event, ev.sel = Select.timeout →
        min_time_channel t.time_left_0_sec t.time_left_0_usec t.time_left_1_sec
          t.time_left_1_usec ev.rand = 0 →
        step F t ev = none →
        sent_on 0 t.sent = sent_on 0 s.sent ++ List.replicate (MAX_RETRIES - 1) s.ch0_pkt) ∧
    (∀ (s : Sender) (ev : Event), ev.sel = Select.timeout →
      min_time_channel s.time_left_0_sec s.time_left_0_usec s.time_left_1_sec
        s.time_left_1_usec ev.rand ≠ 0 →
      (s.pkt1_trans_count < MAX_RETRIES → ∃ t, step F s ev = some t ∧
        t.ch1_pkt = s.ch1_pkt ∧ t.pkt1_trans_count = s.pkt1_trans_count + 1 ∧
        t.sent = s.sent ++ [(1, s.ch1_pkt)]) ∧
      (MAX_RETRIES ≤ s.pkt1_trans_count → step F s ev = none)) ∧
    (∀ (s t : Sender) (evs : List Event), s.pkt1_trans_count = 1 →
      (∀ ev ∈ evs, ev.sel.on1 = none) → transfer_loop F s evs = some t →
      t.ch1_pkt = s.ch1_pkt ∧ t.pkt1_trans_count ≤ MAX_RETRIES ∧
      sent_on 1 t.sent = sent_on 1 s.sent ++ List.replicate (t.pkt1_trans_count - 1) s.ch1_pkt ∧
      ∀ ev : Event, ev.sel = Select.timeout →
        min_time_channel t.time_left_0_sec t.time_left_0_usec t.time_left_1_sec
          t.time_left_1_usec ev.rand ≠ 0 →
        step F t ev = none →
        sent_on 1 t.sent = sent_on 1 s.sent ++ List.replicate (MAX_RETRIES - 1) s.ch1_pkt) := by
  refine ⟨step_timeout0 F, ?_, step_timeout1 F, ?_⟩
  · intro s t evs hs hno hrun
    obtain ⟨a1, a2, a3, a4⟩ := transfer_loop_frame0 F evs s t hno hrun (by rw [hs]; decide)
    rw [hs] at a4
    refine ⟨a1, a3, a4, ?_⟩
    intro ev hsel hmin hnone
    have hcount : t.pkt0_trans_count = MAX_RETRIES := by
      by_contra hne
      obtain ⟨u, hu, -⟩ := (step_timeout0 F t ev hsel hmin).1 (Nat.lt_of_le_of_ne a3 hne)
      rw [hnone] at hu
      simp at hu
    rw [a4, hcount]
  · intro s t evs hs hno hrun
    obtain ⟨a1, a2, a3, a4⟩ := transfer_loop_frame1 F evs s t hno hrun (by rw [hs]; decide)
    rw [hs] at a4
    refine ⟨a1, a3, a4, ?_⟩
    intro ev hsel hmin hnone
    have hcount : t.pkt1_trans_count = MAX_RETRIES := by
      by_contra hne
      obtain ⟨u, hu, -⟩ := (step_timeout1 F t ev hsel hmin).1 (Nat.lt_of_le_of_ne a3 hne)
      rw [hnone] at hu
      simp at hu
    rw [a4, hcount]

/-- C6, an instance: the sender of file250 after the initial sends, channel 0 having
the smaller remaining time; a timeout retransmits the packet of channel 0, and after
that pass one copy of it has been sent again. -/
theorem retransmission_bound_witness :
    (⟨0, 0, Select.timeout⟩ : Event).sel = Select.timeout ∧
    min_time_channel waiting0.time_left_0_sec waiting0.time_left_0_usec
      waiting0.time_left_1_sec waiting0.time_left_1_usec 0 = 0 ∧
    waiting0.pkt0_trans_count = 1 ∧
    ∃ t, transfer_loop file250 waiting0 [⟨0, 0, Select.timeout⟩] = some t ∧
      t.pkt0_trans_count = 2 ∧
      sent_on 0 t.sent = sent_on 0 waiting0.sent ++ List.replicate 1 waiting0.ch0_pkt := by
  refine ⟨rfl, by decide, by decide, ?_⟩
  obtain ⟨t, ht, -, hcount, -⟩ := ((retransmission_bound file250).1 waiting0
    ⟨0, 0, Select.timeout⟩ rfl (by decide)).1 (by decide)
  have hguard : waiting0.state_ch0 + waiting0.state_ch1 < 4 := by decide
  have hrun : transfer_loop file250 waiting0 [⟨0, 0, Select.timeout⟩] = some t := by
    simp only [transfer_loop, hguard, if_true, ht]
  have hc1 : waiting0.pkt0_trans_count = 1 := by decide
  obtain ⟨-, -, hsent, -⟩ := (retransmission_bound file250).2.1 waiting0 t
    [⟨0, 0, Select.timeout⟩] hc1 (by intro ev hev; simp at hev; subst hev; rfl) hrun
  refine ⟨t, hrun, by rw [hcount, hc1], ?_⟩
  rw [hsent, hcount, hc1]

/-- C12. When neither sum sec * CLOCKS_PER_SEC + usec overflows size_t,
min_time_channel returns 0 if the remaining time of channel 0 is strictly smaller,
1 if that of channel 1 is strictly smaller, and on a tie the value of rand() reduced
modulo 2, which is 0 or 1. -/
theorem min_time_channel_spec (c0_sec c0_usec c1_sec c1_usec rand : Nat)
    (h0 : c0_sec * CLOCKS_PER_SEC + c0_usec < 18446744073709551616)
    (h1 : c1_sec * CLOCKS_PER_SEC + c1_usec < 18446744073709551616) :
    (c0_sec * CLOCKS_PER_SEC + c0_usec < c1_sec * CLOCKS_PER_SEC + c1_usec →
      min_time_channel c0_sec c0_usec c1_sec c1_usec rand = 0) ∧
    (c1_sec * CLOCKS_PER_SEC + c1_usec < c0_sec * CLOCKS_PER_SEC + c0_usec →
      min_time_channel c0_sec c0_usec c1_sec c1_usec rand = 1) ∧
    (c0_sec * CLOCKS_PER_SEC + c0_usec = c1_sec * CLOCKS_PER_SEC + c1_usec →
      min_time_channel c0_sec c0_usec c1_sec c1_usec rand = rand % 2 ∧
      (min_time_channel c0_sec c0_usec c1_sec c1_usec rand = 0 ∨
        min_time_channel c0_sec c0_usec c1_sec c1_usec rand = 1)) := by
  unfold min_time_channel
  rw [Nat.mod_eq_of_lt h0, Nat.mod_eq_of_lt h1]
  refine ⟨?_, ?_, ?_⟩
  · intro h; simp [h]
  · intro h
    have h' : ¬ c0_sec * CLOCKS_PER_SEC + c0_usec < c1_sec * CLOCKS_PER_SEC + c1_usec := by omega
    simp [h', h]
  · intro h
    simp only [h, lt_irrefl, if_false, gt_iff_lt, true_and]
    omega

/-- C12, an instance: 1.5 s against 2 s, without overflow. -/
theorem min_time_channel_spec_witness :
    1 * CLOCKS_PER_SEC + 500000 < 18446744073709551616 ∧
    2 * CLOCKS_PER_SEC + 0 < 18446744073709551616 ∧
    1 * CLOCKS_PER_SEC + 500000 < 2 * CLOCKS_PER_SEC + 0 ∧
    min_time_channel 1 500000 2 0 7 = 0 :=
  ⟨by decide, by decide, by decide,
    (min_time_channel_spec 1 500000 2 0 7 (by decide) (by decide)).1 (by decide)⟩

/-- C15, the failing input: a file of 250 bytes. Right after the two initial sends
both transmission counts are 1, but the remaining time of channel 0 is 2 s and 2
microseconds and that of channel 1 is 0 s and 0 microseconds, not
RETRANSMISSION_TIMEOUT seconds and 0 microseconds. -/
theorem initial_timers_not_reset :
    (init file250).sent = [(0, (create_packet file250 0 0).1), (1, (create_packet file250 100 1).1)] ∧
    (init file250).pkt0_trans_count = 1 ∧ (init file250).pkt1_trans_count = 1 ∧
    (init file250).time_left_0_sec = RETRANSMISSION_TIMEOUT ∧
    (init file250).time_left_0_usec = 2 ∧
    (init file250).time_left_1_sec = 0 ∧
    (init file250).time_left_1_usec = 0 := by
  decide

/-- C19, the claim as stated fails: the sender of file250 has sent chunk 0 (seq_no 0)
on channel 0; a DATA packet with seq_no 999 arrives on channel 0. The sender reads
the next chunk (seq_no 200) and sends it on channel 0, which replaces the
outstanding packet. -/
theorem unmatched_packet_is_taken_as_ack :
    (init file250).ch0_pkt.seq_no = 0 ∧
    (on_receive0 file250 (init file250) bogus_packet).ch0_pkt = (create_packet file250 200 0).1 ∧
    (on_receive0 file250 (init file250) bogus_packet).ch0_pkt ≠ (init file250).ch0_pkt ∧
    (on_receive0 file250 (init file250) bogus_packet).state_ch0 ≠ (init file250).state_ch0 ∧
    (on_receive0 file250 (init file250) bogus_packet).sent =
      (init file250).sent ++ [(0, (create_packet file250 200 0).1)] := by
  decide

/-- C19 (amended). The sender does not inspect a packet received on a channel: any
two packets have the same effect on that channel's state, transmission count and
timer, on the file cursor and on the packets sent. If neither channel is in state 2,
the next packet is read from the file and sent, with the count set to 1; otherwise
the channel goes to state 2 and the received packet is kept as its current packet. -/
theorem received_packet_not_inspected (F : List Byte) (s : Sender) (p q : Packet) :
    ((on_receive0 F s p).state_ch0 = (on_receive0 F s q).state_ch0 ∧
      (on_receive0 F s p).pkt0_trans_count = (on_receive0 F s q).pkt0_trans_count ∧
      (on_receive0 F s p).time_left_0_sec = (on_receive0 F s q).time_left_0_sec ∧
      (on_receive0 F s p).time_left_0_usec = (on_receive0 F s q).time_left_0_usec ∧
      (on_receive0 F s p).pos = (on_receive0 F s q).pos ∧
      (on_receive0 F s p).sent = (on_receive0 F s q).sent ∧
      (if s.state_ch0 ≠ 2 ∧ s.state_ch1 ≠ 2 then
        (on_receive0 F s p).ch0_pkt = (create_packet F s.pos 0).1 ∧
        (on_receive0 F s p).pkt0_trans_count = 1 ∧
        (on_receive0 F s p).sent = s.sent ++ [(0, (create_packet F s.pos 0).1)]
      else
        (on_receive0 F s p).ch0_pkt = p ∧ (on_receive0 F s p).state_ch0 = 2 ∧
        (on_receive0 F s p).sent = s.sent)) ∧
    ((on_receive1 F s p).state_ch1 = (on_receive1 F s q).state_ch1 ∧
      (on_receive1 F s p).pkt1_trans_count = (on_receive1 F s q).pkt1_trans_count ∧
      (on_receive1 F s p).time_left_1_sec = (on_receive1 F s q).time_left_1_sec ∧
      (on_receive1 F s p).time_left_1_usec = (on_receive1 F s q).time_left_1_usec ∧
      (on_receive1 F s p).pos = (on_receive1 F s q).pos ∧
      (on_receive1 F s p).sent = (on_receive1 F s q).sent ∧
      (if s.state_ch0 ≠ 2 ∧ s.state_ch1 ≠ 2 then
        (on_receive1 F s p).ch1_pkt = (create_packet F s.pos 1).1 ∧
        (on_receive1 F s p).pkt1_trans_count = 1 ∧
        (on_receive1 F s p).sent = s.sent ++ [(1, (create_packet F s.pos 1).1)]
      else
        (on_receive1 F s p).ch1_pkt = p ∧ (on_receive1 F s p).state_ch1 = 2 ∧
        (on_receive1 F s p).sent = s.sent)) := by
  by_cases h : s.state_ch0 ≠ 2 ∧ s.state_ch1 ≠ 2
  · constructor
    · by_cases hl : (create_packet F s.pos 0).1.is_last ≠ 0 <;>
        simp [on_receive0, h, hl]
    · by_cases hl : (create_packet F s.pos 1).1.is_last ≠ 0 <;>
        simp [on_receive1, h, hl]
  · constructor <;> simp [on_receive0, on_receive1, h]

set_option maxRecDepth 20000 in
/-- C13, the failing run for a file of 250 bytes. After the first pass channel 0 has
sent the last chunk (seq_no 200) and is in state 2, while channel 1 is in state 1,
so the loop goes on. Two timeouts later the timeout is the one of channel 0: the
sender transmits the packet with seq_no 200 again on channel 0 and puts the
channel back into state 1. -/
theorem done_channel_transmits_again :
    (transfer_loop file250 (init file250) [last_sent_event]).map
      (fun s => (s.state_ch0, s.state_ch1, (sent_on 0 s.sent).map (fun p => p.seq_no)))
      = some (2, 1, [0, 200]) ∧
    (transfer_loop file250 (init file250) last_sent_run).map
      (fun s => (s.state_ch0, s.state_ch1, (sent_on 0 s.sent).map (fun p => p.seq_no)))
      = some (1, 1, [0, 200, 200]) :=
  ⟨by decide!, by decide!⟩

set_option maxRecDepth 20000 in
/-- C14, the failing run for a file of 250 bytes. After the first pass channel 0 is in
state 2 and the loop goes on, but the remaining time of channel 0 is 2 s, not the
sentinel. After the next pass channel 0 is still in state 2, with less than 2 s
left against 2 s for channel 1, so min_time_channel selects channel 0 (the draw 1
would select channel 1 on a tie). -/
theorem done_channel_timer_not_sentinel :
    (transfer_loop file250 (init file250) [last_sent_event]).map
      (fun s => (s.state_ch0, s.state_ch1, s.time_left_0_sec, s.time_left_0_usec))
      = some (2, 1, RETRANSMISSION_TIMEOUT, 0) ∧
    RETRANSMISSION_TIMEOUT ≠ LONG_LONG_MAX ∧
    (transfer_loop file250 (init file250) last_sent_run2).map
      (fun s => (s.state_ch0, s.state_ch1, s.time_left_0_sec, s.time_left_1_sec))
      = some (2, 1, 1, 2) ∧
    (transfer_loop file250 (init file250) last_sent_run2).map
      (fun s => min_time_channel s.time_left_0_sec s.time_left_0_usec s.time_left_1_sec
        s.time_left_1_usec 1) = some 0 :=
  ⟨by decide!, by decide, by decide!,
    by decide!⟩

set_option maxRecDepth 20000 in
/-- C21, two failing runs. For a file of 250 bytes: after `last_sent_run` the file has
been closed once, nothing has been read since, and both channels are in state 1;
when the acknowledgment of the last chunk then arrives on socket 0, `create_packet`
is called on the closed file and a fourth packet is sent on channel 0. For a file of
150 bytes: the initial send on channel 1 carries the last chunk (is_last set) and
leaves the file open; when the acknowledgment of chunk 0 arrives on socket 0,
`create_packet` is called again and a second packet marked is_last (seq_no 150, no
payload) is created and sent. -/
theorem create_packet_called_after_last :
    ((transfer_loop file250 (init file250) last_sent_run).map
        (fun s => (s.closed, s.stale_reads, s.state_ch0, s.state_ch1)) = some (1, 0, 1, 1) ∧
      (transfer_loop file250 (init file250) stale_read_run).map
        (fun s => (s.stale_reads, (sent_on 0 s.sent).length)) = some (1, 4)) ∧
    ((init Server.file150).sent.map (fun p => (p.1, p.2.seq_no, p.2.is_last))
        = [(0, 0, 0), (1, 100, 1)] ∧
      ((init Server.file150).closed, (init Server.file150).state_ch0,
        (init Server.file150).state_ch1) = (0, 1, 1) ∧
      (transfer_loop Server.file150 (init Server.file150) first_ack_run).map
        (fun s => s.sent.map (fun p => (p.1, p.2.seq_no, p.2.is_last)))
        = some [(0, 0, 0), (1, 100, 1), (0, 150, 1)] ∧
      (transfer_loop Server.file150 (init Server.file150) first_ack_run).map
        (fun s => (s.closed, s.stale_reads)) = some (1, 0)) :=
  ⟨⟨by decide!, by decide!⟩,
    by decide, by decide, by decide!, by decide!⟩

/-- C22. With the sums of `min_time_channel` taken modulo 2^64: when the seconds of one
channel are the sentinel `__LONG_LONG_MAX__` (with any microseconds below
CLOCKS_PER_SEC) and the other channel has at most RETRANSMISSION_TIMEOUT seconds
and fewer than CLOCKS_PER_SEC microseconds, `min_time_channel` returns the other
channel, whichever of the two holds the sentinel and whatever `rand()` would return,
although the product of the sentinel and CLOCKS_PER_SEC is not below 2^64. -/
theorem min_time_channel_skips_sentinel (usec_closed sec usec rand : Nat)
    (hclosed : usec_closed < CLOCKS_PER_SEC) (hsec : sec ≤ RETRANSMISSION_TIMEOUT)
    (husec : usec < CLOCKS_PER_SEC) :
    min_time_channel LONG_LONG_MAX usec_closed sec usec rand = 1 ∧
    min_time_channel sec usec LONG_LONG_MAX usec_closed rand = 0 ∧
    18446744073709551616 ≤ LONG_LONG_MAX * CLOCKS_PER_SEC := by
  simp only [CLOCKS_PER_SEC, RETRANSMISSION_TIMEOUT] at hclosed hsec husec
  have h1 : (LONG_LONG_MAX * CLOCKS_PER_SEC + usec_closed) % 18446744073709551616
      = 18446744073708551616 + usec_closed := by
    simp only [LONG_LONG_MAX, CLOCKS_PER_SEC]
    omega
  have h2 : (sec * CLOCKS_PER_SEC + usec) % 18446744073709551616 = sec * 1000000 + usec := by
    simp only [CLOCKS_PER_SEC]
    omega
  refine ⟨?_, ?_, by decide⟩
  · unfold min_time_channel
    simp only [h1, h2]
    rw [if_neg (by omega), if_pos (by omega)]
  · unfold min_time_channel
    simp only [h1, h2]
    rw [if_pos (by omega)]

/-- C22, an instance: channel 0 holds the sentinel and channel 1 has 1.5 s left. -/
theorem min_time_channel_skips_sentinel_witness :
    (0 < CLOCKS_PER_SEC ∧ 1 ≤ RETRANSMISSION_TIMEOUT ∧ 500000 < CLOCKS_PER_SEC) ∧
    min_time_channel LONG_LONG_MAX 0 1 500000 0 = 1 ∧
    min_time_channel 1 500000 LONG_LONG_MAX 0 0 = 0 ∧
    18446744073709551616 ≤ LONG_LONG_MAX * CLOCKS_PER_SEC :=
  ⟨⟨by decide, by decide, by decide⟩,
    min_time_channel_skips_sentinel 0 1 500000 0 (by decide) (by decide) (by decide)⟩

end Client

/-! ### The receiver and the sender's packets -/

namespace Server

theorem genuine_last_fields {F : List Byte} (hF : F.length < 4294967296) {pkt : Packet}
    (hp : Genuine F pkt) (hlast : pkt.is_last ≠ 0) :
    pkt.seq_no = PACKET_SIZE * (F.length / PACKET_SIZE) ∧
    pkt.seq_no + pkt.payload_size = F.length := by
  obtain ⟨k, chan, hk, rfl⟩ := hp
  have hmul : PACKET_SIZE * k ≤ F.length := by
    have := Nat.mul_div_le F.length PACKET_SIZE
    have := Nat.mul_le_mul_left PACKET_SIZE hk
    omega
  have hone : (Client.create_packet F (PACKET_SIZE * k) chan).1.is_last = 1 := by
    have h01 : (Client.create_packet F (PACKET_SIZE * k) chan).1.is_last = 0 ∨
        (Client.create_packet F (PACKET_SIZE * k) chan).1.is_last = 1 := by
      simp only [Client.create_packet]
      split <;> simp
    rcases h01 with h | h
    · exact absurd h hlast
    · exact h
  have hkN : k = F.length / PACKET_SIZE := (Client.create_packet_is_last F k chan hk).1.1 hone
  have hsq : (Client.create_packet F (PACKET_SIZE * k) chan).1.seq_no = PACKET_SIZE * k :=
    Nat.mod_eq_of_lt (by omega)
  have hsz : (Client.create_packet F (PACKET_SIZE * k) chan).1.payload_size =
      F.length - PACKET_SIZE * k := by
    clear hone hlast hsq
    simp only [Client.create_packet, List.length_take, List.length_drop, PACKET_SIZE] at hkN ⊢
    omega
  rw [hsq, hsz, ← hkN]
  exact ⟨rfl, by omega⟩

theorem in_order_last_packet {F : List Byte} (hF : F.length < 2147483648) (fd : Nat)
    (st : Receiver) (pkt : Packet) (rand : Nat) (hst : Inv F st) (hp : Genuine F pkt)
    (hacc : accept_or_drop rand ≠ 1) (hseq : pkt.seq_no = toU32 st.expected_seq)
    (hlast : pkt.is_last ≠ 0) :
    (handle_packet fd st pkt rand).last_seq =
      ((PACKET_SIZE * (F.length / PACKET_SIZE) : Nat) : Int) ∧
    (handle_packet fd st pkt rand).is_last_ackd = 1 ∧
    (handle_packet fd st pkt rand).expected_seq = (F.length : Int) := by
  obtain ⟨g1, g2⟩ := genuine_last_fields (by omega) hp hlast
  have i3 : 0 ≤ st.expected_seq := hst.2.2.1
  have i4 : st.expected_seq ≤ (F.length : Int) := hst.2.2.2.1
  have he : st.expected_seq = (pkt.seq_no : Int) := by
    rw [toU32_of_range i3 (by omega)] at hseq
    omega
  have hti : toInt32 (pkt.seq_no : Int) = (pkt.seq_no : Int) :=
    toInt32_of_range (by omega) (by omega)
  have hnew : toInt32 (st.expected_seq + (pkt.payload_size : Int)) = (F.length : Int) := by
    rw [toInt32_of_range (by omega) (by omega)]
    omega
  have hge : st.expected_seq ≥ toInt32 (pkt.seq_no : Int) := by rw [hti, he]
  have hlastv : toInt32 (pkt.seq_no : Int) = ((PACKET_SIZE * (F.length / PACKET_SIZE) : Nat) : Int) := by
    rw [hti, g1]
  have j4 : (handle_packet fd st pkt rand).expected_seq ≤ (F.length : Int) :=
    (handle_packet_inv hF fd st pkt rand hst hp).1.2.2.2.1
  have r2 := (buffer_flush_inv hF st.buffer st.buf_filled (by rw [hst.1]; exact hst.2.1)
    hst.2.2.2.2.2 (toInt32 (st.expected_seq + pkt.payload_size)) (by rw [hnew]; exact Int.natCast_nonneg _)
    (by rw [hnew])).2.1
  rw [← (write_chunk hF hp st.expected_seq i3 i4 hseq).1, ← hst.2.2.2.2.1] at r2
  rw [handle_packet_in_order fd st pkt rand hacc hseq] at j4 ⊢
  refine ⟨?_, ?_, ?_⟩
  · show (if pkt.is_last ≠ 0 then toInt32 (pkt.seq_no : Int) else st.last_seq) = _
    rw [if_pos hlast, hlastv]
  · show (if st.expected_seq ≥ (if pkt.is_last ≠ 0 then toInt32 (pkt.seq_no : Int)
      else st.last_seq) then 1 else st.is_last_ackd) = 1
    rw [if_pos hlast, if_pos hge]
  · exact le_antisymm j4 (hnew ▸ r2)

theorem handle_packet_lastinv {F : List Byte} (hF : F.length < 2147483648) (fd : Nat)
    (st : Receiver) (pkt : Packet) (rand : Nat) (hst : Inv F st) (hl : LastInv F st)
    (hp : Genuine F pkt) : LastInv F (handle_packet fd st pkt rand) := by
  by_cases hacc : accept_or_drop rand ≠ 1
  · by_cases hlt : pkt.seq_no < toU32 st.expected_seq
    · rw [handle_packet_ignored fd st pkt rand (Or.inr (Or.inl hlt))]; exact hl
    · by_cases hseq : pkt.seq_no = toU32 st.expected_seq
      · by_cases hlast : pkt.is_last ≠ 0
        · exact Or.inr (in_order_last_packet hF fd st pkt rand hst hp hacc hseq hlast)
        · rcases hl with hl | ⟨l1, l2, l3⟩
          · left
            rw [handle_packet_in_order fd st pkt rand hacc hseq]
            show (if pkt.is_last ≠ 0 then toInt32 (pkt.seq_no : Int) else st.last_seq) = _
            rw [if_neg hlast, hl]
          · right
            have j4 : (handle_packet fd st pkt rand).expected_seq ≤ (F.length : Int) :=
              (handle_packet_inv hF fd st pkt rand hst hp).1.2.2.2.1
            have hmono := (handle_packet_inv hF fd st pkt rand hst hp).2
            rw [l3] at hmono
            refine ⟨?_, ?_, le_antisymm j4 hmono⟩
            · rw [handle_packet_in_order fd st pkt rand hacc hseq]
              show (if pkt.is_last ≠ 0 then toInt32 (pkt.seq_no : Int) else st.last_seq) = _
              rw [if_neg hlast, l1]
            · rw [handle_packet_in_order fd st pkt rand hacc hseq]
              show (if st.expected_seq ≥ (if pkt.is_last ≠ 0 then toInt32 (pkt.seq_no : Int)
                else st.last_seq) then 1 else st.is_last_ackd) = 1
              rw [l2]
              exact ite_self 1
      · have hgt : toU32 st.expected_seq < pkt.seq_no := by omega
        by_cases hroom : st.buf_filled < TMP_BUFFER_SIZE
        · rw [handle_packet_ahead fd st pkt rand hacc hgt hroom]
          rcases hl with hl | ⟨l1, l2, l3⟩
          · exact Or.inl hl
          · refine Or.inr ⟨l1, ?_, l3⟩
            show (if pkt.is_last ≠ 0 then 1 else st.is_last_ackd) = 1
            rw [l2]
            exact ite_self 1
        · rw [handle_packet_ignored fd st pkt rand (Or.inr (Or.inr ⟨hgt, hroom⟩))]
          exact hl
  · rw [handle_packet_ignored fd st pkt rand (Or.inl (by simpa using hacc))]; exact hl

theorem main_loop_lastinv {F : List Byte} (hF : F.length < 2147483648) :
    ∀ (evs : List (Option Arrival × Option Arrival)) (st : Receiver), Inv F st → LastInv F st →
      GenuineRun F evs → LastInv F (main_loop st evs) := by
  intro evs
  induction evs with
  | nil => intro st _ hl _; exact hl
  | cons ev rest ih =>
    intro st hst hl hg
    simp only [main_loop]
    split
    · have hev := hg ev (List.mem_cons_self _ _)
      have hrest : GenuineRun F rest := fun e he => hg e (List.mem_cons_of_mem _ he)
      obtain ⟨k1, -⟩ := iteration_inv hF st ev.1 ev.2 hst hev.1 hev.2
      refine ih _ k1 ?_ hrest
      unfold iteration
      cases h1 : ev.1 with
      | none =>
        cases h2 : ev.2 with
        | none => exact hl
        | some b => exact handle_packet_lastinv hF 1 st b.pkt b.rand hst hl (hev.2 b h2)
      | some a =>
        have ha := hev.1 a h1
        obtain ⟨m1, -⟩ := handle_packet_inv hF 0 st a.pkt a.rand hst ha
        have m2 := handle_packet_lastinv hF 0 st a.pkt a.rand hst hl ha
        cases h2 : ev.2 with
        | none => exact m2
        | some b => exact handle_packet_lastinv hF 1 _ b.pkt b.rand m1 m2 (hev.2 b h2)
    · exact hl

theorem both_chunks_run_genuine : GenuineRun file150 both_chunks_run := by
  intro ev hev
  simp only [both_chunks_run, List.mem_singleton] at hev
  subst hev
  refine ⟨?_, ?_⟩
  · intro a ha
    simp only [Option.some.injEq] at ha
    subst ha
    exact ⟨0, 0, Nat.zero_le _, rfl⟩
  · intro a ha
    simp only [Option.some.injEq] at ha
    subst ha
    exact ⟨1, 1, by rw [file150_length]; decide, rfl⟩

set_option maxRecDepth 100000 in
/-- C17, the claim as stated fails for a file of 150 bytes: after its two chunks have
arrived in order the loop has stopped with all 150 bytes written, and last_seq is
100, the offset of the last chunk, not the file size 150. -/
theorem last_seq_differs_from_size :
    GenuineRun file150 both_chunks_run ∧
    (main_loop Receiver.init both_chunks_run).is_last_ackd = 1 ∧
    (main_loop Receiver.init both_chunks_run).output = file150 ∧
    (main_loop Receiver.init both_chunks_run).last_seq = 100 ∧
    file150.length = 150 :=
  ⟨both_chunks_run_genuine, by decide, by decide, by decide, file150_length⟩

/-- C17 (amended). For a file F of N < 2^31 bytes and genuine packets of F: in every
state the main loop reaches, last_seq either still has its initial value INT_MAX,
or the packet marked is_last has been taken in order, and then last_seq is the
seq_no of that packet, the offset 100 * (N / 100) of the last chunk (which is N
only if N is a multiple of 100), the loop has been stopped, expected_seq is N and
the output is F. Taking the packet marked is_last in order always leads to the
latter. -/
theorem last_seq_is_last_chunk_offset (F : List Byte)
    (evs : List (Option Arrival × Option Arrival)) (hF : F.length < 2147483648)
    (hg : GenuineRun F evs) :
    ((main_loop Receiver.init evs).last_seq = INT_MAX ∨
      ((main_loop Receiver.init evs).last_seq =
          ((PACKET_SIZE * (F.length / PACKET_SIZE) : Nat) : Int) ∧
        (main_loop Receiver.init evs).is_last_ackd = 1 ∧
        (main_loop Receiver.init evs).expected_seq = (F.length : Int) ∧
        (main_loop Receiver.init evs).output = F)) ∧
    ∀ (fd : Nat) (pkt : Packet) (rand : Nat), Genuine F pkt → pkt.is_last ≠ 0 →
      pkt.seq_no = toU32 (main_loop Receiver.init evs).expected_seq →
      accept_or_drop rand ≠ 1 →
      (handle_packet fd (main_loop Receiver.init evs) pkt rand).last_seq =
        ((PACKET_SIZE * (F.length / PACKET_SIZE) : Nat) : Int) ∧
      (handle_packet fd (main_loop Receiver.init evs) pkt rand).last_seq = (pkt.seq_no : Int) ∧
      (handle_packet fd (main_loop Receiver.init evs) pkt rand).is_last_ackd = 1 ∧
      (handle_packet fd (main_loop Receiver.init evs) pkt rand).expected_seq = (F.length : Int) := by
  obtain ⟨hinv, -⟩ := main_loop_inv hF evs Receiver.init (init_inv F) hg
  have hl := main_loop_lastinv hF evs Receiver.init (init_inv F) (Or.inl rfl) hg
  constructor
  · rcases hl with hl | ⟨l1, l2, l3⟩
    · exact Or.inl hl
    · refine Or.inr ⟨l1, l2, l3, ?_⟩
      obtain ⟨-, -, -, -, i5, -⟩ := hinv
      rw [i5, l3]
      simp
  · intro fd pkt rand hp hlast hseq hacc
    obtain ⟨a1, a2, a3⟩ := in_order_last_packet hF fd _ pkt rand hinv hp hacc hseq hlast
    refine ⟨a1, ?_, a2, a3⟩
    rw [handle_packet_in_order fd _ pkt rand hacc hseq]
    dsimp only
    rw [if_pos hlast]
    obtain ⟨g1, -, -⟩ := genuine_fields (by omega) hp
    exact toInt32_of_range (by omega) (by omega)

set_option maxRecDepth 100000 in
/-- C17, an instance: the two chunks of a file of 150 bytes arriving in order. -/
theorem last_seq_is_last_chunk_offset_witness :
    file150.length < 2147483648 ∧
    GenuineRun file150 both_chunks_run ∧
    (main_loop Receiver.init both_chunks_run).last_seq ≠ INT_MAX ∧
    ((main_loop Receiver.init both_chunks_run).last_seq = INT_MAX ∨
      ((main_loop Receiver.init both_chunks_run).last_seq =
          ((PACKET_SIZE * (file150.length / PACKET_SIZE) : Nat) : Int) ∧
        (main_loop Receiver.init both_chunks_run).is_last_ackd = 1 ∧
        (main_loop Receiver.init both_chunks_run).expected_seq = (file150.length : Int) ∧
        (main_loop Receiver.init both_chunks_run).output = file150)) :=
  have hlen : file150.length < 2147483648 := by rw [file150_length]; decide
  ⟨hlen, both_chunks_run_genuine, by decide,
    (last_seq_is_last_chunk_offset file150 both_chunks_run hlen both_chunks_run_genuine).1⟩

end Server
end StopWait
